import Mathlib

/-!
Verification of the PlexCache-Redux tiering core (`src/file_operations.py`,
orchestrated by `src/plexcache_app.py`) against its natural-language
specification.  The Python code is shallowly embedded: the filesystem is a
finite state (a list of file paths and a list of directory paths), the
exclude ledger is an optional list of lines, and every Python function that
the claims touch is translated into an executable Lean function over that
state.  Path manipulation follows CPython's `posixpath` implementation
(`dirname`, `basename`, `join`, `normpath`, `relpath`) and Python string
semantics (`str.replace(old, new, 1)`, `str.strip`).
-/

/-- Characters Python's `str.strip()` removes (ASCII whitespace). -/
def isPySpace (c : Char) : Bool :=
  c.toNat = 32 || c.toNat = 9 || c.toNat = 10 || c.toNat = 13 || c.toNat = 11 || c.toNat = 12

/-- Python `s.strip()` restricted to ASCII whitespace. -/
def pyStrip (s : String) : String :=
  ⟨((s.data.dropWhile isPySpace).reverse.dropWhile isPySpace).reverse⟩

/-- Python `s.replace(old, new, 1)` on character lists: replace the leftmost
occurrence of `old` in `s` by `new` (an empty `old` matches at the start). -/
def replaceFirstCh (old new : List Char) : List Char → List Char
  | [] => if old = [] then new else []
  | c :: rest =>
    if old.isPrefixOf (c :: rest) then new ++ (c :: rest).drop old.length
    else c :: replaceFirstCh old new rest

/-- Python `s.replace(old, new, 1)`. -/
def pyReplaceFirst (s old new : String) : String :=
  ⟨replaceFirstCh old.data new.data s.data⟩

/-- Split a path string around its last slash: `(s[:i], s[i:])` where
`i = s.rfind('/') + 1` (and `(\x22\x22, s)` when there is no slash), as in
`posixpath.dirname` / `posixpath.basename`. -/
def splitAtLastSlash (cs : List Char) : List Char × List Char :=
  match cs.reverse.findIdx? (fun c => c = '/') with
  | none => ([], cs)
  | some j => (cs.take (cs.length - j), cs.drop (cs.length - j))

/-- CPython `posixpath.dirname`. -/
def pyDirname (s : String) : String :=
  let head := (splitAtLastSlash s.data).1
  if head = [] then ""
  else if head.all (fun c => c = '/') then ⟨head⟩
  else ⟨(head.reverse.dropWhile (fun c => c = '/')).reverse⟩

/-- CPython `posixpath.basename`. -/
def pyBasename (s : String) : String :=
  ⟨(splitAtLastSlash s.data).2⟩

/-- Boolean "starts with" over the underlying character lists. -/
def strStarts (s p : String) : Bool :=
  p.data.isPrefixOf s.data

/-- Boolean "ends with" over the underlying character lists. -/
def strEnds (s p : String) : Bool :=
  p.data.reverse.isPrefixOf s.data.reverse

/-- CPython `posixpath.join` for two components. -/
def pyJoin (a b : String) : String :=
  if strStarts b "/" then b
  else if a = "" || strEnds a "/" then a ++ b
  else a ++ "/" ++ b

/-- Python `s.split('/')`. -/
def splitOnSlash : List Char → List (List Char)
  | [] => [[]]
  | c :: rest =>
    match splitOnSlash rest with
    | [] => [[]]
    | h :: t => if c = '/' then [] :: h :: t else (c :: h) :: t

/-- Components of a path, as `String`s. -/
def pathParts (s : String) : List String :=
  (splitOnSlash s.data).map (fun l => ⟨l⟩)

/-- Join a list of strings with slashes (as `'/'.join` in CPython's
`normpath`/`relpath`). -/
def joinSlash : List String → String
  | [] => ""
  | [s] => s
  | s :: rest => s ++ "/" ++ joinSlash rest

/-- One step of CPython `posixpath.normpath`'s component scan. -/
def normCompStep (initSlashes : Nat) (acc : List String) (comp : String) : List String :=
  if comp = "" || comp = "." then acc
  else if comp ≠ ".." ∨ (initSlashes = 0 ∧ acc = []) ∨ acc.getLast? = some ".." then
    acc ++ [comp]
  else if acc ≠ [] then acc.dropLast
  else acc

/-- CPython `posixpath.normpath`. -/
def pyNormpath (p : String) : String :=
  if p = "" then "."
  else
    let initSlashes : Nat :=
      if strStarts p "//" && !(strStarts p "///") then 2
      else if strStarts p "/" then 1 else 0
    let comps := (pathParts p).foldl (normCompStep initSlashes) []
    let res := String.mk (List.replicate initSlashes '/') ++ joinSlash comps
    if res = "" then "." else res

/-- Length of the common leading run of two component lists
(`genericpath.commonprefix` on two lists). -/
def commonLen : List String → List String → Nat
  | a :: as, b :: bs => if a = b then 1 + commonLen as bs else 0
  | _, _ => 0

/-- CPython `posixpath.relpath` for absolute `path` and `start` (for absolute
inputs `abspath` reduces to `normpath`, which is how the program calls it). -/
def pyRelpath (path start : String) : String :=
  let pl := (pathParts (pyNormpath path)).filter (fun x => x ≠ "")
  let sl := (pathParts (pyNormpath start)).filter (fun x => x ≠ "")
  let i := commonLen sl pl
  let rel := (List.replicate (sl.length - i) "..") ++ pl.drop i
  if rel = [] then "." else joinSlash rel

example : pyDirname "/mnt/user/media/x.mkv" = "/mnt/user/media" := by decide
example : pyDirname "/mnt/user/m//x.mkv" = "/mnt/user/m" := by decide
example : pyBasename "/mnt/user/m//x.mkv" = "x.mkv" := by decide
example : pyNormpath "/mnt/user/" = "/mnt/user" := by decide
example : pyNormpath "" = "." := by decide
example : pyRelpath "/mnt/user/m" "/mnt/user/" = "m" := by decide
example : pyJoin "/mnt/cache/" "m" = "/mnt/cache/m" := by decide
example : pyReplaceFirst "/mnt/user/media" "/mnt/user/" "/mnt/cache/" = "/mnt/cache/media" := by decide

/-!
The filesystem model: a finite state of regular files and directories.
`os.path.isfile` is membership in `files`, `os.path.exists` membership in
either component, `os.remove` (as used under the source's
try/except-FileNotFoundError) removes a path from `files`.
-/

/-- Filesystem state: existing regular files and existing directories. -/
structure FS where
  files : List String
  dirs : List String
deriving DecidableEq, Repr

/-- `os.path.exists` over the model. -/
def existsFS (fs : FS) (p : String) : Bool :=
  decide (p ∈ fs.files) || decide (p ∈ fs.dirs)

/-- `os.remove` under the source's `try/except FileNotFoundError: pass`
wrappers: deleting an absent path is a no-op. -/
def fsRemoveFile (fs : FS) (p : String) : FS :=
  { fs with files := fs.files.filter (fun x => x ≠ p) }

/-!
`FileFilter` (`src/file_operations.py:108-302`).
-/

/-- Configuration of `FileFilter.__init__` (the exclude-file path is carried
separately as the optional ledger value). -/
structure FilterCfg where
  real_source : String
  cache_dir : String
  is_unraid : Bool
deriving DecidableEq, Repr

/-- The array-side counterpart used by `_should_add_to_array` and
`_should_add_to_cache`: `file.replace("/mnt/user/", "/mnt/user0/", 1)` on
unRAID, the file itself otherwise. -/
def arrayFileOf (cfg : FilterCfg) (file : String) : String :=
  if cfg.is_unraid then pyReplaceFirst file "/mnt/user/" "/mnt/user0/" else file

/-- `FileFilter._get_cache_paths` (`file_operations.py:188-196`). -/
def getCachePaths (cfg : FilterCfg) (file : String) : String × String :=
  let cachePath := pyReplaceFirst (pyDirname file) cfg.real_source cfg.cache_dir
  (cachePath, pyJoin cachePath (pyBasename file))

/-- `FileFilter._should_add_to_array` (`file_operations.py:152-169`): returns
whether the file still needs moving to the array, deleting the cache copy
when the array copy already exists. -/
def shouldAddToArray (cfg : FilterCfg) (fs : FS) (file cacheFileName : String)
    (mediaToCache : List String) : Bool × FS :=
  if file ∈ mediaToCache then (false, fs)
  else
    let arrayFile := arrayFileOf cfg file
    if arrayFile ∈ fs.files then (false, fsRemoveFile fs cacheFileName)
    else (true, fs)

/-- `FileFilter._should_add_to_cache` (`file_operations.py:171-186`): returns
whether the file still needs moving to the cache, deleting the array copy
when both copies exist. -/
def shouldAddToCache (cfg : FilterCfg) (fs : FS) (file cacheFileName : String) :
    Bool × FS :=
  let arrayFile := arrayFileOf cfg file
  if cacheFileName ∈ fs.files ∧ arrayFile ∈ fs.files then
    (false, fsRemoveFile fs arrayFile)
  else (decide (cacheFileName ∉ fs.files), fs)

/-- Loop body of `FileFilter.filter_files` (`file_operations.py:118-150`),
with the already-processed set threaded as a list.  The source also gathers a
`cache_files_to_exclude` list that it never reads again; it is omitted. -/
def filterGo (cfg : FilterCfg) (destination : String) (mediaToCache skip : List String) :
    FS → List String → List String → List String × FS
  | fs, _, [] => ([], fs)
  | fs, processed, f :: rest =>
    if f ∈ processed ∨ f ∈ skip then
      filterGo cfg destination mediaToCache skip fs processed rest
    else
      let cacheFileName := (getCachePaths cfg f).2
      if destination = "array" then
        let r := shouldAddToArray cfg fs f cacheFileName mediaToCache
        let rec1 := filterGo cfg destination mediaToCache skip r.2 (f :: processed) rest
        (if r.1 then f :: rec1.1 else rec1.1, rec1.2)
      else if destination = "cache" then
        let r := shouldAddToCache cfg fs f cacheFileName
        let rec1 := filterGo cfg destination mediaToCache skip r.2 (f :: processed) rest
        (if r.1 then f :: rec1.1 else rec1.1, rec1.2)
      else
        filterGo cfg destination mediaToCache skip fs (f :: processed) rest

/-- `FileFilter.filter_files` returning the move list together with the
filesystem after the opportunistic duplicate deletions. -/
def filterFiles (cfg : FilterCfg) (fs : FS) (files : List String)
    (destination : String) (mediaToCache skip : List String) : List String × FS :=
  filterGo cfg destination mediaToCache skip fs [] files

example :
    filterFiles ⟨"/mnt/user/", "/mnt/cache/", false⟩
      ⟨["/mnt/user/media/x.mkv", "/mnt/cache/media/x.mkv"], []⟩
      ["/mnt/user/media/x.mkv"] "array" [] []
      = ([], ⟨["/mnt/user/media/x.mkv"], []⟩) := by decide

example :
    filterFiles ⟨"/mnt/user/", "/mnt/cache/", false⟩
      ⟨["/mnt/user/media/x.mkv", "/mnt/cache/media/x.mkv"], []⟩
      ["/mnt/user/media/x.mkv"] "cache" [] []
      = ([], ⟨["/mnt/cache/media/x.mkv"], []⟩) := by decide

/-!
Show-name extraction and the eviction reconciler
(`FileFilter._extract_show_name`, `FileFilter.get_files_to_move_back_to_array`,
`FileFilter.remove_files_from_exclude_list`, `file_operations.py:198-302`).
-/

/-- Python `str.lower()` over the character list. -/
def strLower (s : String) : String :=
  ⟨s.data.map Char.toLower⟩

/-- Python `re.match(r'^(Season|Series)\s*\d+$', part, re.IGNORECASE)` as a
Boolean predicate (ASCII digits and whitespace). -/
def seasonFolder (part : String) : Bool :=
  let l := (strLower part).data
  let r := (l.drop 6).dropWhile isPySpace
  ("season".data.isPrefixOf l || "series".data.isPrefixOf l) && !r.isEmpty &&
    r.all (fun c => c.isDigit)

/-- Python `re.match(r'^\d+$', part)`. -/
def digitsFolder (part : String) : Bool :=
  !part.data.isEmpty && part.data.all (fun c => c.isDigit)

/-- Python `re.match(r'^Specials$', part, re.IGNORECASE)`. -/
def specialsFolder (part : String) : Bool :=
  strLower part = "specials"

/-- A path component that marks a season/episode folder. -/
def seasonMarker (part : String) : Bool :=
  seasonFolder part || digitsFolder part || specialsFolder part

/-- Scan of `_extract_show_name`'s loop: at the first marking component
return the previous component (or `none` when the marker is the first
component, matching the `i > 0` check and the `break`). -/
def showNameGo : Option String → List String → Option String
  | _, [] => none
  | prev, p :: rest => if seasonMarker p then prev else showNameGo (some p) rest

/-- `FileFilter._extract_show_name` (`file_operations.py:254-273`). -/
def extractShowName (filePath : String) : Option String :=
  showNameGo none (pathParts (pyNormpath filePath))

example : extractShowName "/mnt/user/media/Show X (2020)/Season 1/e02.mkv"
    = some "Show X (2020)" := by decide
example : extractShowName "/mnt/cache/media/Movie (2020).mkv" = none := by decide
example : extractShowName "/mnt/cache/media/Show Y/Specials/e1.mkv" = some "Show Y" := by decide

/-- The nonempty stripped lines of the exclude file, as read by
`get_files_to_move_back_to_array` and `remove_files_from_exclude_list`. -/
def readLedgerLines (lines : List String) : List String :=
  (lines.map pyStrip).filter (fun l => l ≠ "")

/-- The "needed shows" set: show names extracted from the union of the
current OnDeck and watchlist items (`file_operations.py:215-221`). -/
def neededShows (desired : List String) : List String :=
  desired.filterMap extractShowName

/-- The array-tier destination computed for an evicted ledger entry:
`cache_file.replace(self.cache_dir, self.real_source, 1)`
(`file_operations.py:241`). -/
def arrayDestOf (cfg : FilterCfg) (cacheFile : String) : String :=
  pyReplaceFirst cacheFile cfg.cache_dir cfg.real_source

/-- Per-entry loop of `get_files_to_move_back_to_array`
(`file_operations.py:224-245`), producing the move-back list and the prune
list in traversal order. -/
def moveBackGo (cfg : FilterCfg) (fs : FS) (needed : List String) :
    List String → List String × List String
  | [] => ([], [])
  | e :: rest =>
    let r := moveBackGo cfg fs needed rest
    if existsFS fs e = false then (r.1, e :: r.2)
    else
      (extractShowName e).elim r (fun s =>
        if s ∈ needed then r
        else (arrayDestOf cfg e :: r.1, e :: r.2))

/-- `FileFilter.get_files_to_move_back_to_array` (`file_operations.py:198-252`):
`(files_to_move_back, cache_paths_to_remove)` computed from the exclude
ledger (`none` models a missing exclude file, which yields empty results). -/
def getFilesToMoveBack (cfg : FilterCfg) (fs : FS) (ledger : Option (List String))
    (currentOndeck currentWatchlist : List String) : List String × List String :=
  match ledger with
  | none => ([], [])
  | some lines =>
    moveBackGo cfg fs (neededShows (currentOndeck ++ currentWatchlist))
      (readLedgerLines lines)

/-- `FileFilter.remove_files_from_exclude_list` (`file_operations.py:275-302`):
rewrites the ledger without the given paths; returns the success flag. -/
def removeFromExcludeList (ledger : Option (List String)) (toRemove : List String) :
    Option (List String) × Bool :=
  match ledger with
  | none => (none, false)
  | some lines =>
    (some ((readLedgerLines lines).filter (fun l => l ∉ toRemove)), true)

/-!
`CacheCleanup.__init__` (`file_operations.py:427-442`).
-/

/-- The fixed deny-list `CacheCleanup._PROTECTED_PATHS`. -/
def PROTECTED_PATHS : List String :=
  ["/", "/mnt", "/mnt/user", "/mnt/user0", "/home", "/var", "/etc", "/usr"]

/-- `CacheCleanup.__init__`: rejects an empty cache dir and a cache dir whose
`os.path.normpath` lands in the protected set, before anything else happens;
otherwise returns the stored fields (`library_folders or []` is modelled by
the plain list argument). -/
def cacheCleanupInit (cache_dir : String) (library_folders : List String) :
    Except String (String × List String) :=
  if cache_dir = "" ∨ pyStrip cache_dir = "" then
    Except.error "cache_dir cannot be empty"
  else if pyNormpath cache_dir ∈ PROTECTED_PATHS then
    Except.error "cache_dir cannot be a protected system directory"
  else Except.ok (cache_dir, library_folders)

example : (cacheCleanupInit "/mnt/user/" []).isOk = false := by decide
example : (cacheCleanupInit "/mnt/cache/" []).isOk = true := by decide

/-!
`FileMover` (`src/file_operations.py:305-424`).  The worker pool of
`_execute_move_commands` is embedded sequentially: workers act on disjoint
commands and the ledger appends are serialized by `_exclude_file_lock`, so
the per-command effects and the aggregate error count are those of the
sequential fold.
-/

/-- Configuration of `FileMover.__init__`; `hasExcludeFile` models whether
`mover_cache_exclude_file` is a non-None, non-empty path (the application
always passes one). -/
structure MoverCfg where
  real_source : String
  cache_dir : String
  is_unraid : Bool
  debug : Bool
  hasExcludeFile : Bool
deriving DecidableEq, Repr

/-- Mover-side state: the filesystem plus the exclude-ledger file
(`none` when the file does not exist; its lines otherwise). -/
structure MoveSt where
  fs : FS
  ledger : Option (List String)
deriving DecidableEq, Repr

/-- `FileMover._get_paths` (`file_operations.py:353-374`):
`(user_path, cache_path, cache_file_name, user_file_name)`. -/
def moverGetPaths (cfg : MoverCfg) (fileToMove : String) :
    String × String × String × String :=
  let userPath0 := pyDirname fileToMove
  let relativePath := pyRelpath userPath0 cfg.real_source
  let cachePath := pyJoin cfg.cache_dir relativePath
  let cacheFileName := pyJoin cachePath (pyBasename fileToMove)
  let userPath := if cfg.is_unraid then pyReplaceFirst userPath0 "/mnt/user/" "/mnt/user0/"
    else userPath0
  let userFileName := pyJoin userPath (pyBasename fileToMove)
  (userPath, cachePath, cacheFileName, userFileName)

/-- Modelled from the spec: `createDirectoryWithPermissions(path, referenceFile)`
of the filesystem capability interface (its implementation lives in
`system_utils.py`, which is not among the provided sources).  It ensures the
destination directory exists, with permission bits and ownership that the
model does not track. -/
def createDirWithPermissions (fs : FS) (path : String) : FS :=
  if path ∈ fs.dirs then fs else { fs with dirs := path :: fs.dirs }

/-- Modelled from the spec: `moveFile(src, dst)` of the filesystem capability
interface (its implementation lives in `system_utils.py`, which is not among
the provided sources).  It moves the file at `src` into the directory `dst`,
preserving content, permissions and ownership (not tracked by the model), and
raises — modelled as `none` — when the source file does not exist. -/
def moveFile (fs : FS) (src dstDir : String) : Option FS :=
  if src ∈ fs.files then
    let f1 := fs.files.filter (fun x => x ≠ src)
    let destFile := pyJoin dstDir (pyBasename src)
    some { fs with files := if destFile ∈ f1 then f1 else destFile :: f1 }
  else none

/-- `FileMover._get_move_command` (`file_operations.py:376-392`): destination
directories are created only outside debug mode, and a command is produced
for the array direction when the cache-side file exists, for the cache
direction when it does not yet exist. -/
def getMoveCommand (cfg : MoverCfg) (fs : FS) (destination : String)
    (cacheFileName userPath userFileName cachePath : String) :
    Option (String × String) × FS :=
  if destination = "array" then
    let fs1 := if cfg.debug then fs else createDirWithPermissions fs userPath
    (if cacheFileName ∈ fs1.files then some (cacheFileName, userPath) else none, fs1)
  else if destination = "cache" then
    let fs1 := if cfg.debug then fs else createDirWithPermissions fs cachePath
    (if cacheFileName ∈ fs1.files then none else some (userFileName, cachePath), fs1)
  else (none, fs)

/-- Command-building loop of `FileMover.move_media_files`
(`file_operations.py:324-346`): deduplicates by exact path string and pairs
each move command with its cache file name. -/
def buildMoveCommands (cfg : MoverCfg) (destination : String) :
    FS → List String → List String → List ((String × String) × String) × FS
  | fs, _, [] => ([], fs)
  | fs, processed, f :: rest =>
    if f ∈ processed then buildMoveCommands cfg destination fs processed rest
    else
      let ps := moverGetPaths cfg f
      let r := getMoveCommand cfg fs destination ps.2.2.1 ps.1 ps.2.2.2 ps.2.1
      let rec1 := buildMoveCommands cfg destination r.2 (f :: processed) rest
      (r.1.elim rec1.1 (fun m => (m, ps.2.2.1) :: rec1.1), rec1.2)

/-- `FileMover._move_file` (`file_operations.py:409-424`): one move; on
success and only for the cache direction (and a configured exclude file) the
cache file name is appended to the ledger; on failure the state is unchanged
and the error code 1 is returned. -/
def moveFileStep (cfg : MoverCfg) (destination : String) (st : MoveSt)
    (cmd : (String × String) × String) : MoveSt × Nat :=
  match moveFile st.fs cmd.1.1 cmd.1.2 with
  | some fs1 =>
    let ledger1 := if destination = "cache" ∧ cfg.hasExcludeFile = true then
        some (st.ledger.getD [] ++ [cmd.2])
      else st.ledger
    ({ fs := fs1, ledger := ledger1 }, 0)
  | none => (st, 1)

/-- Sequentialized fold of `_execute_move_commands`'s worker pool, summing
the per-command error codes. -/
def execGo (cfg : MoverCfg) (destination : String) :
    MoveSt → List ((String × String) × String) → MoveSt × Nat
  | st, [] => (st, 0)
  | st, c :: cs =>
    let r := moveFileStep cfg destination st c
    let r2 := execGo cfg destination r.1 cs
    (r2.1, r.2 + r2.2)

/-- `FileMover._execute_move_commands` (`file_operations.py:394-407`): in
debug mode the commands are only logged. -/
def executeMoveCommands (cfg : MoverCfg) (destination : String)
    (cmds : List ((String × String) × String)) (st : MoveSt) : MoveSt × Nat :=
  if cfg.debug then (st, 0) else execGo cfg destination st cmds

/-- `FileMover.move_media_files` (`file_operations.py:318-351`): build all
move commands, then execute them; returns the state and the error count. -/
def moveMediaFiles (cfg : MoverCfg) (files : List String) (destination : String)
    (st : MoveSt) : MoveSt × Nat :=
  let r := buildMoveCommands cfg destination st.fs [] files
  executeMoveCommands cfg destination r.1 { fs := r.2, ledger := st.ledger }

example :
    moveMediaFiles ⟨"/mnt/user/", "/mnt/cache/", false, false, true⟩
      ["/mnt/user/m/x.mkv"] "cache" ⟨⟨["/mnt/user/m/x.mkv"], []⟩, some []⟩
      = (⟨⟨["/mnt/cache/m/x.mkv"], ["/mnt/cache/m"]⟩, some ["/mnt/cache/m/x.mkv"]⟩, 0) := by
  decide

/-!
Per-run orchestration (`PlexCacheApp.run`, `src/plexcache_app.py:51-102`):
Phase 8 (`_process_media`) ends by calling
`_check_files_to_move_back_to_array` (`plexcache_app.py:312-314, 528-555`),
Phase 9 (`_move_files`, `plexcache_app.py:462-526`) moves the array-direction
list and then the cache-direction list, Phase 10 (`_finish`) runs the cache
cleanup sweep.
-/

/-- The phases of one run that the temporal claims speak about. -/
inductive RunPhase where
  | reconcile
  | moveArrayPass
  | moveCachePass
  | cleanup
deriving DecidableEq, Repr

/-- Execution order of those phases in `PlexCacheApp.run`: the eviction
reconciliation happens at the end of Phase 8 (`_process_media`,
`plexcache_app.py:312-314`), the array- and then cache-direction move passes
in Phase 9 (`_move_files`, `plexcache_app.py:462-470`), the cleanup sweep in
Phase 10 (`_finish`, `plexcache_app.py:571-572`). -/
def runPhaseOrder : List RunPhase :=
  [RunPhase.reconcile, RunPhase.moveArrayPass, RunPhase.moveCachePass, RunPhase.cleanup]

/-- Phases 8-9 of `PlexCacheApp.run` as a state transformer: the eviction
reconciliation (`_check_files_to_move_back_to_array`) computes the move-back
and prune lists from the current ledger and, when the move-back list is
non-empty, extends the array move list and prunes the ledger; then
`_move_files` filters and moves toward the array (when `watched_move` is
set) and then toward the cache.  The free-space check of
`_check_free_space_and_move_files` only gates a process exit and is treated
as satisfied.  The second component of the result is the computed move-back
list. -/
def processMediaAndMoveFiles (cfgF : FilterCfg) (cfgM : MoverCfg)
    (watchedMove : Bool) (watchedToArray mediaToCache ondeck watchlist skip : List String)
    (st : MoveSt) : MoveSt × List String :=
  let rb := getFilesToMoveBack cfgF st.fs st.ledger ondeck watchlist
  let mediaToArray := watchedToArray ++ rb.1
  let ledger1 := if rb.1 = [] then st.ledger else (removeFromExcludeList st.ledger rb.2).1
  let st1 : MoveSt := { fs := st.fs, ledger := ledger1 }
  let st2 :=
    if watchedMove then
      let fa := filterFiles cfgF st1.fs mediaToArray "array" mediaToCache skip
      (moveMediaFiles cfgM fa.1 "array" { fs := fa.2, ledger := st1.ledger }).1
    else st1
  let fc := filterFiles cfgF st2.fs mediaToCache "cache" mediaToCache skip
  let st3 := (moveMediaFiles cfgM fc.1 "cache" { fs := fc.2, ledger := st2.ledger }).1
  (st3, rb.1)

/-!
Helper lemmas about `pyReplaceFirst` on prefixed strings.
-/

theorem replaceFirstCh_of_pre (old new s : List Char) (h : old <+: s) :
    replaceFirstCh old new s = new ++ s.drop old.length := by
  cases s with
  | nil =>
    have h0 : old = [] := List.prefix_nil.mp h
    simp [replaceFirstCh, h0]
  | cons c rest =>
    rw [replaceFirstCh, if_pos ( List.isPrefixOf_iff_prefix.mpr h)]

theorem pyReplaceFirst_of_pre (s old new : String) (h : old.data <+: s.data) :
    (pyReplaceFirst s old new).data = new.data ++ s.data.drop old.data.length :=
  replaceFirstCh_of_pre old.data new.data s.data h

theorem pyReplaceFirst_inj_of_pre (a b e1 e2 : String)
    (h1 : a.data <+: e1.data) (h2 : a.data <+: e2.data)
    (he : pyReplaceFirst e1 a b = pyReplaceFirst e2 a b) : e1 = e2 := by
  obtain ⟨t1, ht1⟩ := h1
  obtain ⟨t2, ht2⟩ := h2
  have hd : (pyReplaceFirst e1 a b).data = (pyReplaceFirst e2 a b).data := by rw [he]
  rw [pyReplaceFirst_of_pre _ _ _ ⟨t1, ht1⟩, pyReplaceFirst_of_pre _ _ _ ⟨t2, ht2⟩,
    ← ht1, ← ht2, List.drop_left, List.drop_left] at hd
  have := List.append_cancel_left hd
  apply String.ext
  rw [← ht1, ← ht2, this]

theorem append_ne_of_incomp (a b : List Char) (ha : ¬ a <+: b) (hb : ¬ b <+: a) :
    ∀ x y, a ++ x ≠ b ++ y := by
  induction a generalizing b with
  | nil => exact absurd ( List.nil_prefix) ha
  | cons c a' ih =>
    cases b with
    | nil => exact absurd ( List.nil_prefix) hb
    | cons d b' =>
      intro x y hxy
      rw [List.cons_append, List.cons_append] at hxy
      have hcd : c = d := by injection hxy
      have htl : a' ++ x = b' ++ y := by injection hxy
      subst hcd
      have ha' : ¬ a' <+: b' := fun hp => ha (List.cons_prefix_cons.mpr ⟨rfl, hp⟩)
      have hb' : ¬ b' <+: a' := fun hp => hb (List.cons_prefix_cons.mpr ⟨rfl, hp⟩)
      exact ih b' ha' hb' x y htl

/-!
Claim C9: constructing `CacheCleanup` with a deny-listed cache root fails at
construction time.
-/

/-- C9: for every cache root whose `os.path.normpath` lies in the protected
deny-list (for example `/`, `/mnt/user`, `/home`), `CacheCleanup.__init__`
raises (the model returns an error) before any traversal state is built. -/
theorem cacheCleanupInit_rejects_protected (d : String) (l : List String)
    (h : pyNormpath d ∈ PROTECTED_PATHS) :
    (cacheCleanupInit d l).isOk = false := by
  by_cases h0 : d = "" ∨ pyStrip d = ""
  · simp only [cacheCleanupInit, if_pos h0]
    rfl
  · simp only [cacheCleanupInit, if_neg h0, if_pos h]
    rfl

/-- Witness for C9 at the concrete cache root `/mnt/user/` (the trailing-slash
form the configuration layer produces). -/
theorem cacheCleanupInit_rejects_protected_witness :
    pyNormpath "/mnt/user/" ∈ PROTECTED_PATHS ∧
      (cacheCleanupInit "/mnt/user/" ["media"]).isOk = false :=
  ⟨by decide, cacheCleanupInit_rejects_protected "/mnt/user/" ["media"] (by decide)⟩

/-!
Claim C1: duplicate reconciliation by `FileFilter.filter_files`.
-/

theorem filterFiles_single_array (cfg : FilterCfg) (fs : FS) (f : String)
    (mtc skip : List String) (h2 : f ∉ skip) :
    filterFiles cfg fs [f] "array" mtc skip =
      (if (shouldAddToArray cfg fs f (getCachePaths cfg f).2 mtc).1 then [f] else [],
       (shouldAddToArray cfg fs f (getCachePaths cfg f).2 mtc).2) := by
  unfold filterFiles
  simp only [filterGo]
  rw [if_neg (by simp [h2])]
  simp

theorem filterFiles_single_cache (cfg : FilterCfg) (fs : FS) (f : String)
    (mtc skip : List String) (h2 : f ∉ skip) :
    filterFiles cfg fs [f] "cache" mtc skip =
      (if (shouldAddToCache cfg fs f (getCachePaths cfg f).2).1 then [f] else [],
       (shouldAddToCache cfg fs f (getCachePaths cfg f).2).2) := by
  unfold filterFiles
  simp only [filterGo]
  rw [if_neg (by simp [h2])]
  simp

/-- C1 (counterexample to the claim as stated): with
`real_source = /mnt/user/`, `cache_dir = /mnt/cache/` and the file present at
both `/mnt/user/media/x.mkv` (array tier) and `/mnt/cache/media/x.mkv`
(cache tier), filtering toward `array` drops the file but deletes the
*cache* copy and keeps the array copy — the opposite of "the cache copy wins
and the array-tier copy is the one deleted". -/
theorem filterFiles_array_direction_keeps_array_copy :
    (filterFiles ⟨"/mnt/user/", "/mnt/cache/", false⟩
        ⟨["/mnt/user/media/x.mkv", "/mnt/cache/media/x.mkv"], []⟩
        ["/mnt/user/media/x.mkv"] "array" [] []).1 = [] ∧
    "/mnt/user/media/x.mkv" ∈
      (filterFiles ⟨"/mnt/user/", "/mnt/cache/", false⟩
        ⟨["/mnt/user/media/x.mkv", "/mnt/cache/media/x.mkv"], []⟩
        ["/mnt/user/media/x.mkv"] "array" [] []).2.files ∧
    "/mnt/cache/media/x.mkv" ∉
      (filterFiles ⟨"/mnt/user/", "/mnt/cache/", false⟩
        ⟨["/mnt/user/media/x.mkv", "/mnt/cache/media/x.mkv"], []⟩
        ["/mnt/user/media/x.mkv"] "array" [] []).2.files := by
  decide

/-- C1 (amended): for a file present at both tiers (and not skipped, and — for
the array direction — not in the cache-bound list), filtering toward either
direction drops the file from the move list and leaves exactly one copy:
toward `cache` the array copy is deleted and the cache copy survives, while
toward `array` the cache copy is deleted and the array copy survives. -/
theorem filterFiles_both_tiers_resolution (cfg : FilterCfg) (fs : FS) (file : String)
    (mtc skip : List String)
    (hskip : file ∉ skip) (hmtc : file ∉ mtc)
    (harr : arrayFileOf cfg file ∈ fs.files)
    (hcache : (getCachePaths cfg file).2 ∈ fs.files)
    (hne : arrayFileOf cfg file ≠ (getCachePaths cfg file).2) :
    (filterFiles cfg fs [file] "array" mtc skip).1 = [] ∧
    (getCachePaths cfg file).2 ∉ (filterFiles cfg fs [file] "array" mtc skip).2.files ∧
    arrayFileOf cfg file ∈ (filterFiles cfg fs [file] "array" mtc skip).2.files ∧
    (filterFiles cfg fs [file] "cache" mtc skip).1 = [] ∧
    arrayFileOf cfg file ∉ (filterFiles cfg fs [file] "cache" mtc skip).2.files ∧
    (getCachePaths cfg file).2 ∈ (filterFiles cfg fs [file] "cache" mtc skip).2.files := by
  have hsa : shouldAddToArray cfg fs file (getCachePaths cfg file).2 mtc =
      (false, fsRemoveFile fs (getCachePaths cfg file).2) := by
    unfold shouldAddToArray
    rw [if_neg hmtc, if_pos harr]
  have hsc : shouldAddToCache cfg fs file (getCachePaths cfg file).2 =
      (false, fsRemoveFile fs (arrayFileOf cfg file)) := by
    unfold shouldAddToCache
    rw [if_pos ⟨hcache, harr⟩]
  have ha := filterFiles_single_array cfg fs file mtc skip hskip
  have hc := filterFiles_single_cache cfg fs file mtc skip hskip
  rw [hsa] at ha
  rw [hsc] at hc
  simp only [if_false, Bool.false_eq_true] at ha hc
  rw [ha, hc]
  refine ⟨rfl, ?_, ?_, rfl, ?_, ?_⟩
  · simp [fsRemoveFile, List.mem_filter]
  · simp [fsRemoveFile, List.mem_filter, harr, hne]
  · simp [fsRemoveFile, List.mem_filter]
  · simp [fsRemoveFile, List.mem_filter, hcache]
    exact fun h => absurd h.symm hne

/-- Witness for C1 (amended) at a concrete two-copy filesystem. -/
theorem filterFiles_both_tiers_resolution_witness :
    (filterFiles ⟨"/mnt/user/", "/mnt/cache/", false⟩
        ⟨["/mnt/user/media/x.mkv", "/mnt/cache/media/x.mkv"], []⟩
        ["/mnt/user/media/x.mkv"] "array" [] []).1 = [] ∧
    (getCachePaths ⟨"/mnt/user/", "/mnt/cache/", false⟩ "/mnt/user/media/x.mkv").2 ∉
      (filterFiles ⟨"/mnt/user/", "/mnt/cache/", false⟩
        ⟨["/mnt/user/media/x.mkv", "/mnt/cache/media/x.mkv"], []⟩
        ["/mnt/user/media/x.mkv"] "array" [] []).2.files ∧
    arrayFileOf ⟨"/mnt/user/", "/mnt/cache/", false⟩ "/mnt/user/media/x.mkv" ∈
      (filterFiles ⟨"/mnt/user/", "/mnt/cache/", false⟩
        ⟨["/mnt/user/media/x.mkv", "/mnt/cache/media/x.mkv"], []⟩
        ["/mnt/user/media/x.mkv"] "array" [] []).2.files ∧
    (filterFiles ⟨"/mnt/user/", "/mnt/cache/", false⟩
        ⟨["/mnt/user/media/x.mkv", "/mnt/cache/media/x.mkv"], []⟩
        ["/mnt/user/media/x.mkv"] "cache" [] []).1 = [] ∧
    arrayFileOf ⟨"/mnt/user/", "/mnt/cache/", false⟩ "/mnt/user/media/x.mkv" ∉
      (filterFiles ⟨"/mnt/user/", "/mnt/cache/", false⟩
        ⟨["/mnt/user/media/x.mkv", "/mnt/cache/media/x.mkv"], []⟩
        ["/mnt/user/media/x.mkv"] "cache" [] []).2.files ∧
    (getCachePaths ⟨"/mnt/user/", "/mnt/cache/", false⟩ "/mnt/user/media/x.mkv").2 ∈
      (filterFiles ⟨"/mnt/user/", "/mnt/cache/", false⟩
        ⟨["/mnt/user/media/x.mkv", "/mnt/cache/media/x.mkv"], []⟩
        ["/mnt/user/media/x.mkv"] "cache" [] []).2.files :=
  filterFiles_both_tiers_resolution ⟨"/mnt/user/", "/mnt/cache/", false⟩
    ⟨["/mnt/user/media/x.mkv", "/mnt/cache/media/x.mkv"], []⟩ "/mnt/user/media/x.mkv"
    [] [] (by decide) (by decide) (by decide) (by decide) (by decide)

/-!
Claim C2: dry-run behaviour.
-/

theorem buildMoveCommands_debug (cfg : MoverCfg) (h : cfg.debug = true)
    (destination : String) :
    ∀ (files : List String) (fs : FS) (proc : List String),
      (buildMoveCommands cfg destination fs proc files).2 = fs := by
  intro files
  induction files with
  | nil => intro fs proc; rfl
  | cons f rest ih =>
    intro fs proc
    simp only [buildMoveCommands]
    by_cases hf : f ∈ proc
    · rw [if_pos hf]
      exact ih fs proc
    · rw [if_neg hf]
      have hg : ∀ cfn up ufn cp,
          (getMoveCommand cfg fs destination cfn up ufn cp).2 = fs := by
        intro cfn up ufn cp
        unfold getMoveCommand
        rw [h]
        split
        · simp
        · split
          · simp
          · rfl
      simp only [hg]
      exact ih fs (f :: proc)

theorem moveMediaFiles_debug_noop (cfg : MoverCfg) (h : cfg.debug = true) :
    ∀ (files : List String) (destination : String) (st : MoveSt),
      moveMediaFiles cfg files destination st = (st, 0) := by
  intro files destination st
  simp only [moveMediaFiles, executeMoveCommands,
    buildMoveCommands_debug cfg h destination files st.fs [], h, if_true]

/-- C2 (amended, `ConcurrentMover` part): with the dry-run flag set,
`FileMover.move_media_files` performs no filesystem mutation and no ledger
write — the state is returned unchanged with a zero error count. -/
theorem moveMediaFiles_dryRun_pure (cfg : MoverCfg) (h : cfg.debug = true) :
    ∀ (files : List String) (destination : String) (st : MoveSt),
      moveMediaFiles cfg files destination st = (st, 0) :=
  moveMediaFiles_debug_noop cfg h

/-- Witness for C2 (amended) at a concrete dry-run configuration. -/
theorem moveMediaFiles_dryRun_pure_witness :
    moveMediaFiles ⟨"/mnt/user/", "/mnt/cache/", false, true, true⟩
        ["/mnt/user/m/x.mkv"] "cache" ⟨⟨["/mnt/user/m/x.mkv"], []⟩, some []⟩
      = (⟨⟨["/mnt/user/m/x.mkv"], []⟩, some []⟩, 0) :=
  moveMediaFiles_dryRun_pure ⟨"/mnt/user/", "/mnt/cache/", false, true, true⟩ (by decide)
    ["/mnt/user/m/x.mkv"] "cache" ⟨⟨["/mnt/user/m/x.mkv"], []⟩, some []⟩

/-- C2 (counterexample to the claim as stated): a full dry-run pass (mover
debug flag set) still mutates the filesystem, because the duplicate
resolution inside `FileFilter.filter_files` is not guarded by the dry-run
flag: with the file present at both tiers, the run deletes the array copy
`/mnt/user/media/x.mkv`. -/
theorem dryRun_still_deletes_duplicate :
    (processMediaAndMoveFiles ⟨"/mnt/user/", "/mnt/cache/", false⟩
        ⟨"/mnt/user/", "/mnt/cache/", false, true, true⟩ false []
        ["/mnt/user/media/x.mkv"] [] [] []
        ⟨⟨["/mnt/user/media/x.mkv", "/mnt/cache/media/x.mkv"], []⟩, some []⟩).1.fs.files
      = ["/mnt/cache/media/x.mkv"] ∧
    MoverCfg.debug ⟨"/mnt/user/", "/mnt/cache/", false, true, true⟩ = true := by
  decide

/-!
Characterization of the reconciler's two output lists.
-/

theorem moveBackGo_cons (cfg : FilterCfg) (fs : FS) (needed : List String)
    (e : String) (rest : List String) :
    moveBackGo cfg fs needed (e :: rest) =
      if existsFS fs e = false then
        ((moveBackGo cfg fs needed rest).1, e :: (moveBackGo cfg fs needed rest).2)
      else
        (extractShowName e).elim (moveBackGo cfg fs needed rest) (fun s =>
          if s ∈ needed then moveBackGo cfg fs needed rest
          else (arrayDestOf cfg e :: (moveBackGo cfg fs needed rest).1,
                e :: (moveBackGo cfg fs needed rest).2)) := rfl

theorem moveBackGo_pr_sound (cfg : FilterCfg) (fs : FS) (needed : List String) :
    ∀ (es : List String) (x : String), x ∈ (moveBackGo cfg fs needed es).2 →
      x ∈ es ∧ (existsFS fs x = false ∨
        ∃ s, extractShowName x = some s ∧ s ∉ needed) := by
  intro es
  induction es with
  | nil => intro x hx; simp [moveBackGo] at hx
  | cons e rest ih =>
    intro x hx
    rw [moveBackGo_cons] at hx
    by_cases hex : existsFS fs e = false
    · rw [if_pos hex] at hx
      rcases List.mem_cons.mp hx with h | h
      · subst h; exact ⟨List.mem_cons_self _ _, Or.inl hex⟩
      · obtain ⟨h1, h2⟩ := ih x h
        exact ⟨List.mem_cons_of_mem _ h1, h2⟩
    · rw [if_neg hex] at hx
      cases hsn : extractShowName e with
      | none =>
        rw [hsn, Option.elim_none] at hx
        obtain ⟨h1, h2⟩ := ih x hx
        exact ⟨List.mem_cons_of_mem _ h1, h2⟩
      | some s =>
        simp only [hsn, Option.elim_some] at hx
        by_cases hn : s ∈ needed
        · rw [if_pos hn] at hx
          obtain ⟨h1, h2⟩ := ih x hx
          exact ⟨List.mem_cons_of_mem _ h1, h2⟩
        · rw [if_neg hn] at hx
          rcases List.mem_cons.mp hx with h | h
          · subst h; exact ⟨List.mem_cons_self _ _, Or.inr ⟨s, hsn, hn⟩⟩
          · obtain ⟨h1, h2⟩ := ih x h
            exact ⟨List.mem_cons_of_mem _ h1, h2⟩

theorem moveBackGo_pr_stale (cfg : FilterCfg) (fs : FS) (needed : List String) :
    ∀ (es : List String) (x : String), x ∈ es → existsFS fs x = false →
      x ∈ (moveBackGo cfg fs needed es).2 := by
  intro es
  induction es with
  | nil => intro x hx; simp at hx
  | cons e rest ih =>
    intro x hx hst
    rw [moveBackGo_cons]
    rcases List.mem_cons.mp hx with h | h
    · subst h
      rw [if_pos hst]
      exact List.mem_cons_self _ _
    · by_cases hex : existsFS fs e = false
      · rw [if_pos hex]
        exact List.mem_cons_of_mem _ (ih x h hst)
      · rw [if_neg hex]
        cases hsn : extractShowName e with
        | none =>
          simp only [Option.elim_none]
          exact ih x h hst
        | some s =>
          simp only [hsn, Option.elim_some]
          by_cases hn : s ∈ needed
          · rw [if_pos hn]
            exact ih x h hst
          · rw [if_neg hn]
            exact List.mem_cons_of_mem _ (ih x h hst)

theorem moveBackGo_pr_evicted (cfg : FilterCfg) (fs : FS) (needed : List String) :
    ∀ (es : List String) (x : String) (s : String), x ∈ es →
      extractShowName x = some s → s ∉ needed →
      x ∈ (moveBackGo cfg fs needed es).2 := by
  intro es
  induction es with
  | nil => intro x s hx; simp at hx
  | cons e rest ih =>
    intro x s hx hsn hn
    rw [moveBackGo_cons]
    rcases List.mem_cons.mp hx with h | h
    · subst h
      by_cases hex : existsFS fs x = false
      · rw [if_pos hex]
        exact List.mem_cons_self _ _
      · rw [if_neg hex]
        simp only [hsn, Option.elim_some, if_neg hn]
        exact List.mem_cons_self _ _
    · by_cases hex : existsFS fs e = false
      · rw [if_pos hex]
        exact List.mem_cons_of_mem _ (ih x s h hsn hn)
      · rw [if_neg hex]
        cases hsn2 : extractShowName e with
        | none =>
          simp only [Option.elim_none]
          exact ih x s h hsn hn
        | some s2 =>
          simp only [hsn2, Option.elim_some]
          by_cases hn2 : s2 ∈ needed
          · rw [if_pos hn2]
            exact ih x s h hsn hn
          · rw [if_neg hn2]
            exact List.mem_cons_of_mem _ (ih x s h hsn hn)

theorem moveBackGo_mb_sound (cfg : FilterCfg) (fs : FS) (needed : List String) :
    ∀ (es : List String) (q : String), q ∈ (moveBackGo cfg fs needed es).1 →
      ∃ e, e ∈ es ∧ existsFS fs e = true ∧
        (∃ s, extractShowName e = some s ∧ s ∉ needed) ∧ q = arrayDestOf cfg e := by
  intro es
  induction es with
  | nil => intro q hq; simp [moveBackGo] at hq
  | cons e rest ih =>
    intro q hq
    rw [moveBackGo_cons] at hq
    by_cases hex : existsFS fs e = false
    · rw [if_pos hex] at hq
      obtain ⟨e2, h1, h2, h3, h4⟩ := ih q hq
      exact ⟨e2, List.mem_cons_of_mem _ h1, h2, h3, h4⟩
    · rw [if_neg hex] at hq
      cases hsn : extractShowName e with
      | none =>
        rw [hsn, Option.elim_none] at hq
        obtain ⟨e2, h1, h2, h3, h4⟩ := ih q hq
        exact ⟨e2, List.mem_cons_of_mem _ h1, h2, h3, h4⟩
      | some s =>
        simp only [hsn, Option.elim_some] at hq
        by_cases hn : s ∈ needed
        · rw [if_pos hn] at hq
          obtain ⟨e2, h1, h2, h3, h4⟩ := ih q hq
          exact ⟨e2, List.mem_cons_of_mem _ h1, h2, h3, h4⟩
        · rw [if_neg hn] at hq
          rcases List.mem_cons.mp hq with h | h
          · exact ⟨e, List.mem_cons_self _ _, Bool.not_eq_false _ ▸ hex, ⟨s, hsn, hn⟩, h⟩
          · obtain ⟨e2, h1, h2, h3, h4⟩ := ih q h
            exact ⟨e2, List.mem_cons_of_mem _ h1, h2, h3, h4⟩

theorem moveBackGo_mb_complete (cfg : FilterCfg) (fs : FS) (needed : List String) :
    ∀ (es : List String) (e : String) (s : String), e ∈ es →
      existsFS fs e = true → extractShowName e = some s → s ∉ needed →
      arrayDestOf cfg e ∈ (moveBackGo cfg fs needed es).1 := by
  intro es
  induction es with
  | nil => intro e s he; simp at he
  | cons e2 rest ih =>
    intro e s he hex hsn hn
    rw [moveBackGo_cons]
    rcases List.mem_cons.mp he with h | h
    · subst h
      rw [if_neg (by rw [hex]; simp)]
      simp only [hsn, Option.elim_some, if_neg hn]
      exact List.mem_cons_self _ _
    · by_cases hex2 : existsFS fs e2 = false
      · rw [if_pos hex2]
        exact ih e s h hex hsn hn
      · rw [if_neg hex2]
        cases hsn2 : extractShowName e2 with
        | none =>
          simp only [Option.elim_none]
          exact ih e s h hex hsn hn
        | some s2 =>
          simp only [hsn2, Option.elim_some]
          by_cases hn2 : s2 ∈ needed
          · rw [if_pos hn2]
            exact ih e s h hex hsn hn
          · rw [if_neg hn2]
            exact List.mem_cons_of_mem _ (ih e s h hex hsn hn)

/-!
Claims C4, C7, C8: the eviction reconciler, and C3: its position in the run.
-/

/-- C8: every ledger entry whose target file no longer exists on disk is
placed in the prune list and never in the move-back list (under the standing
assumptions that ledger entries live under the cache root and that the cache
root and the array root are not prefixes of one another). -/
theorem staleEntry_pruned_never_movedBack (cfg : FilterCfg) (fs : FS)
    (lines ondeck watchlist : List String) (entry : String)
    (hpref : ∀ e ∈ readLedgerLines lines, cfg.cache_dir.data <+: e.data)
    (hinc : ¬ cfg.cache_dir.data <+: cfg.real_source.data)
    (hinc2 : ¬ cfg.real_source.data <+: cfg.cache_dir.data)
    (hmem : entry ∈ readLedgerLines lines)
    (hstale : existsFS fs entry = false) :
    entry ∈ (getFilesToMoveBack cfg fs (some lines) ondeck watchlist).2 ∧
    entry ∉ (getFilesToMoveBack cfg fs (some lines) ondeck watchlist).1 := by
  have hunfold : getFilesToMoveBack cfg fs (some lines) ondeck watchlist =
      moveBackGo cfg fs (neededShows (ondeck ++ watchlist)) (readLedgerLines lines) := rfl
  rw [hunfold]
  constructor
  · exact moveBackGo_pr_stale cfg fs _ _ entry hmem hstale
  · intro hq
    obtain ⟨e, he, hex, hs, heq⟩ := moveBackGo_mb_sound cfg fs _ _ entry hq
    obtain ⟨t, ht⟩ := hpref e he
    obtain ⟨u, hu⟩ := hpref entry hmem
    have hd : entry.data = (arrayDestOf cfg e).data := by rw [heq]
    rw [arrayDestOf, pyReplaceFirst_of_pre e cfg.cache_dir cfg.real_source ⟨t, ht⟩] at hd
    exact append_ne_of_incomp cfg.cache_dir.data cfg.real_source.data hinc hinc2 u _
      (hu.trans hd)

/-- Witness for C8: a stale entry (file externally deleted) next to a live,
evicted entry of another show. -/
theorem staleEntry_pruned_never_movedBack_witness :
    (∀ e ∈ readLedgerLines ["/mnt/cache/media/Show Z/Season 1/gone.mkv",
        "/mnt/cache/media/Show Y/Season 2/live.mkv"],
      ("/mnt/cache/" : String).data <+: e.data) ∧
    "/mnt/cache/media/Show Z/Season 1/gone.mkv" ∈
      (getFilesToMoveBack ⟨"/mnt/user/", "/mnt/cache/", false⟩
        ⟨["/mnt/cache/media/Show Y/Season 2/live.mkv"], []⟩
        (some ["/mnt/cache/media/Show Z/Season 1/gone.mkv",
               "/mnt/cache/media/Show Y/Season 2/live.mkv"]) [] []).2 ∧
    "/mnt/cache/media/Show Z/Season 1/gone.mkv" ∉
      (getFilesToMoveBack ⟨"/mnt/user/", "/mnt/cache/", false⟩
        ⟨["/mnt/cache/media/Show Y/Season 2/live.mkv"], []⟩
        (some ["/mnt/cache/media/Show Z/Season 1/gone.mkv",
               "/mnt/cache/media/Show Y/Season 2/live.mkv"]) [] []).1 := by
  refine ⟨by decide, ?_⟩
  exact staleEntry_pruned_never_movedBack ⟨"/mnt/user/", "/mnt/cache/", false⟩
    ⟨["/mnt/cache/media/Show Y/Season 2/live.mkv"], []⟩
    ["/mnt/cache/media/Show Z/Season 1/gone.mkv",
     "/mnt/cache/media/Show Y/Season 2/live.mkv"] [] []
    "/mnt/cache/media/Show Z/Season 1/gone.mkv"
    (by decide) (by decide) (by decide) (by decide) (by decide)

/-- C4: for an on-disk ledger entry that yields a show name, the entry is
kept — neither pruned nor (as its array translation) moved back — exactly
when some currently desired path yields the same show name; when no desired
path yields it, the entry lands in both the move-back list (translated) and
the prune list of the same pass. -/
theorem showEviction_keeps_iff_needed (cfg : FilterCfg) (fs : FS)
    (lines ondeck watchlist : List String) (entry s : String)
    (hpref : ∀ e ∈ readLedgerLines lines, cfg.cache_dir.data <+: e.data)
    (hmem : entry ∈ readLedgerLines lines)
    (hex : existsFS fs entry = true)
    (hshow : extractShowName entry = some s) :
    ((entry ∉ (getFilesToMoveBack cfg fs (some lines) ondeck watchlist).2 ∧
      arrayDestOf cfg entry ∉ (getFilesToMoveBack cfg fs (some lines) ondeck watchlist).1)
        ↔ s ∈ neededShows (ondeck ++ watchlist)) ∧
    (s ∉ neededShows (ondeck ++ watchlist) →
      entry ∈ (getFilesToMoveBack cfg fs (some lines) ondeck watchlist).2 ∧
      arrayDestOf cfg entry ∈ (getFilesToMoveBack cfg fs (some lines) ondeck watchlist).1) := by
  have hunfold : getFilesToMoveBack cfg fs (some lines) ondeck watchlist =
      moveBackGo cfg fs (neededShows (ondeck ++ watchlist)) (readLedgerLines lines) := rfl
  rw [hunfold]
  have hkeep : s ∈ neededShows (ondeck ++ watchlist) →
      entry ∉ (moveBackGo cfg fs (neededShows (ondeck ++ watchlist)) (readLedgerLines lines)).2 ∧
      arrayDestOf cfg entry ∉
        (moveBackGo cfg fs (neededShows (ondeck ++ watchlist)) (readLedgerLines lines)).1 := by
    intro hn
    constructor
    · intro hp
      obtain ⟨-, h2⟩ := moveBackGo_pr_sound cfg fs _ _ entry hp
      rcases h2 with h2 | ⟨s2, hs2, hn2⟩
      · simp [hex] at h2
      · rw [hshow] at hs2
        have hss : s = s2 := by injection hs2
        exact hn2 (hss ▸ hn)
    · intro hm
      obtain ⟨e, he, -, ⟨s2, hs2, hn2⟩, heq⟩ := moveBackGo_mb_sound cfg fs _ _ _ hm
      have hee : e = entry :=
        pyReplaceFirst_inj_of_pre cfg.cache_dir cfg.real_source e entry
          (hpref e he) (hpref entry hmem) heq.symm
      rw [hee, hshow] at hs2
      have hss : s = s2 := by injection hs2
      exact hn2 (hss ▸ hn)
  have hevict : s ∉ neededShows (ondeck ++ watchlist) →
      entry ∈ (moveBackGo cfg fs (neededShows (ondeck ++ watchlist)) (readLedgerLines lines)).2 ∧
      arrayDestOf cfg entry ∈
        (moveBackGo cfg fs (neededShows (ondeck ++ watchlist)) (readLedgerLines lines)).1 := by
    intro hn
    exact ⟨moveBackGo_pr_evicted cfg fs _ _ entry s hmem hshow hn,
      moveBackGo_mb_complete cfg fs _ _ entry s hmem hex hshow hn⟩
  constructor
  · constructor
    · intro hkept
      by_contra hn
      exact hkept.1 ((hevict hn).1)
    · exact hkeep
  · exact hevict

/-- Witness for C4 at the specification's own example: two episodes of
`Show X (2020)` in the ledger; with `e02` desired the entries are kept, and
the implication direction is exercised with the show name needed. -/
theorem showEviction_keeps_iff_needed_witness :
    ((("/mnt/cache/media/Show X (2020)/Season 1/e01.mkv" : String) ∉
      (getFilesToMoveBack ⟨"/mnt/user/", "/mnt/cache/", false⟩
        ⟨["/mnt/cache/media/Show X (2020)/Season 1/e01.mkv",
          "/mnt/cache/media/Show X (2020)/Season 1/e02.mkv"], []⟩
        (some ["/mnt/cache/media/Show X (2020)/Season 1/e01.mkv",
               "/mnt/cache/media/Show X (2020)/Season 1/e02.mkv"])
        ["/mnt/user/media/Show X (2020)/Season 1/e02.mkv"] []).2 ∧
      arrayDestOf ⟨"/mnt/user/", "/mnt/cache/", false⟩
          "/mnt/cache/media/Show X (2020)/Season 1/e01.mkv" ∉
        (getFilesToMoveBack ⟨"/mnt/user/", "/mnt/cache/", false⟩
          ⟨["/mnt/cache/media/Show X (2020)/Season 1/e01.mkv",
            "/mnt/cache/media/Show X (2020)/Season 1/e02.mkv"], []⟩
          (some ["/mnt/cache/media/Show X (2020)/Season 1/e01.mkv",
                 "/mnt/cache/media/Show X (2020)/Season 1/e02.mkv"])
          ["/mnt/user/media/Show X (2020)/Season 1/e02.mkv"] []).1)
        ↔ "Show X (2020)" ∈
            neededShows (["/mnt/user/media/Show X (2020)/Season 1/e02.mkv"] ++ [])) ∧
    ("Show X (2020)" ∉ neededShows (["/mnt/user/media/Show X (2020)/Season 1/e02.mkv"] ++ []) →
      ("/mnt/cache/media/Show X (2020)/Season 1/e01.mkv" : String) ∈
        (getFilesToMoveBack ⟨"/mnt/user/", "/mnt/cache/", false⟩
          ⟨["/mnt/cache/media/Show X (2020)/Season 1/e01.mkv",
            "/mnt/cache/media/Show X (2020)/Season 1/e02.mkv"], []⟩
          (some ["/mnt/cache/media/Show X (2020)/Season 1/e01.mkv",
                 "/mnt/cache/media/Show X (2020)/Season 1/e02.mkv"])
          ["/mnt/user/media/Show X (2020)/Season 1/e02.mkv"] []).2 ∧
      arrayDestOf ⟨"/mnt/user/", "/mnt/cache/", false⟩
          "/mnt/cache/media/Show X (2020)/Season 1/e01.mkv" ∈
        (getFilesToMoveBack ⟨"/mnt/user/", "/mnt/cache/", false⟩
          ⟨["/mnt/cache/media/Show X (2020)/Season 1/e01.mkv",
            "/mnt/cache/media/Show X (2020)/Season 1/e02.mkv"], []⟩
          (some ["/mnt/cache/media/Show X (2020)/Season 1/e01.mkv",
                 "/mnt/cache/media/Show X (2020)/Season 1/e02.mkv"])
          ["/mnt/user/media/Show X (2020)/Season 1/e02.mkv"] []).1) :=
  showEviction_keeps_iff_needed ⟨"/mnt/user/", "/mnt/cache/", false⟩
    ⟨["/mnt/cache/media/Show X (2020)/Season 1/e01.mkv",
      "/mnt/cache/media/Show X (2020)/Season 1/e02.mkv"], []⟩
    ["/mnt/cache/media/Show X (2020)/Season 1/e01.mkv",
     "/mnt/cache/media/Show X (2020)/Season 1/e02.mkv"]
    ["/mnt/user/media/Show X (2020)/Season 1/e02.mkv"] []
    "/mnt/cache/media/Show X (2020)/Season 1/e01.mkv" "Show X (2020)"
    (by decide) (by decide) (by decide) (by decide)

/-- C7 (counterexample to the claim as stated): a ledger entry that exists on
disk but yields no show name (a movie) is simply kept — with empty desired
sets the reconciler returns empty move-back and prune lists, although the
claimed per-file fallback would require the entry to be moved back and
pruned (it is absent from every desired set). -/
theorem movieEntry_no_fallback_counterexample :
    getFilesToMoveBack ⟨"/mnt/user/", "/mnt/cache/", false⟩
        ⟨["/mnt/cache/media/Movie (2020).mkv"], []⟩
        (some ["/mnt/cache/media/Movie (2020).mkv"]) [] [] = ([], []) ∧
    extractShowName "/mnt/cache/media/Movie (2020).mkv" = none ∧
    existsFS ⟨["/mnt/cache/media/Movie (2020).mkv"], []⟩
      "/mnt/cache/media/Movie (2020).mkv" = true := by
  decide

/-- C7 (amended): an on-disk ledger entry that yields no show group (a movie
or unparseable path) is always kept — never pruned and never moved back —
regardless of the desired sets; there is no per-file fallback. -/
theorem movieEntry_always_kept (cfg : FilterCfg) (fs : FS)
    (lines ondeck watchlist : List String) (entry : String)
    (hpref : ∀ e ∈ readLedgerLines lines, cfg.cache_dir.data <+: e.data)
    (hmem : entry ∈ readLedgerLines lines)
    (hex : existsFS fs entry = true)
    (hshow : extractShowName entry = none) :
    entry ∉ (getFilesToMoveBack cfg fs (some lines) ondeck watchlist).2 ∧
    arrayDestOf cfg entry ∉ (getFilesToMoveBack cfg fs (some lines) ondeck watchlist).1 := by
  have hunfold : getFilesToMoveBack cfg fs (some lines) ondeck watchlist =
      moveBackGo cfg fs (neededShows (ondeck ++ watchlist)) (readLedgerLines lines) := rfl
  rw [hunfold]
  constructor
  · intro hp
    obtain ⟨-, h2⟩ := moveBackGo_pr_sound cfg fs _ _ entry hp
    rcases h2 with h2 | ⟨s2, hs2, -⟩
    · simp [hex] at h2
    · rw [hshow] at hs2
      exact Option.noConfusion hs2
  · intro hm
    obtain ⟨e, he, -, ⟨s2, hs2, -⟩, heq⟩ := moveBackGo_mb_sound cfg fs _ _ _ hm
    have hee : e = entry :=
      pyReplaceFirst_inj_of_pre cfg.cache_dir cfg.real_source e entry
        (hpref e he) (hpref entry hmem) heq.symm
    rw [hee, hshow] at hs2
    exact Option.noConfusion hs2

/-- Witness for C7 (amended): a movie entry among a live evicted show entry,
with empty desired sets. -/
theorem movieEntry_always_kept_witness :
    ("/mnt/cache/media/Movie A (2021).mkv" : String) ∉
      (getFilesToMoveBack ⟨"/mnt/user/", "/mnt/cache/", false⟩
        ⟨["/mnt/cache/media/Movie A (2021).mkv",
          "/mnt/cache/media/Show W/Season 3/e07.mkv"], []⟩
        (some ["/mnt/cache/media/Movie A (2021).mkv",
               "/mnt/cache/media/Show W/Season 3/e07.mkv"]) [] []).2 ∧
    arrayDestOf ⟨"/mnt/user/", "/mnt/cache/", false⟩ "/mnt/cache/media/Movie A (2021).mkv" ∉
      (getFilesToMoveBack ⟨"/mnt/user/", "/mnt/cache/", false⟩
        ⟨["/mnt/cache/media/Movie A (2021).mkv",
          "/mnt/cache/media/Show W/Season 3/e07.mkv"], []⟩
        (some ["/mnt/cache/media/Movie A (2021).mkv",
               "/mnt/cache/media/Show W/Season 3/e07.mkv"]) [] []).1 :=
  movieEntry_always_kept ⟨"/mnt/user/", "/mnt/cache/", false⟩
    ⟨["/mnt/cache/media/Movie A (2021).mkv",
      "/mnt/cache/media/Show W/Season 3/e07.mkv"], []⟩
    ["/mnt/cache/media/Movie A (2021).mkv",
     "/mnt/cache/media/Show W/Season 3/e07.mkv"] [] []
    "/mnt/cache/media/Movie A (2021).mkv"
    (by decide) (by decide) (by decide) (by decide)

/-- C3 (counterexample to the claim as stated): in `PlexCacheApp.run` the
eviction reconciliation executes *before* the cache-direction move pass, not
after it — it is the tail of Phase 8 while the cache move pass is in
Phase 9. -/
theorem reconcile_precedes_cacheMovePass :
    runPhaseOrder.indexOf RunPhase.reconcile <
      runPhaseOrder.indexOf RunPhase.moveCachePass := by
  decide

/-- C3 (amended): the reconciliation pass runs before both move passes and
reads the ledger as of the start of the run, so every move-back path derives
from a pre-existing on-disk ledger entry; a file first moved into cache
during the run (whose ledger entry is appended only in the later cache move
pass) is never proposed for eviction by the same run's reconciliation. -/
theorem reconcile_first_uses_initial_ledger :
    (runPhaseOrder.indexOf RunPhase.reconcile <
       runPhaseOrder.indexOf RunPhase.moveArrayPass ∧
     runPhaseOrder.indexOf RunPhase.reconcile <
       runPhaseOrder.indexOf RunPhase.moveCachePass) ∧
    ∀ (cfgF : FilterCfg) (cfgM : MoverCfg) (wm : Bool)
      (wta mtc od wl skip : List String) (st : MoveSt) (p : String),
      p ∈ (processMediaAndMoveFiles cfgF cfgM wm wta mtc od wl skip st).2 →
      ∃ e, e ∈ readLedgerLines (st.ledger.getD []) ∧ existsFS st.fs e = true ∧
        p = arrayDestOf cfgF e := by
  refine ⟨by decide, ?_⟩
  intro cfgF cfgM wm wta mtc od wl skip st p hp
  have hmb : (processMediaAndMoveFiles cfgF cfgM wm wta mtc od wl skip st).2 =
      (getFilesToMoveBack cfgF st.fs st.ledger od wl).1 := rfl
  rw [hmb] at hp
  cases hled : st.ledger with
  | none =>
    rw [hled] at hp
    simp [getFilesToMoveBack] at hp
  | some lines =>
    rw [hled] at hp
    obtain ⟨e, he, hex, -, heq⟩ := moveBackGo_mb_sound cfgF st.fs _ _ p hp
    exact ⟨e, he, hex, heq⟩

/-- Witness for C3 (amended): a run whose pre-existing ledger holds a
no-longer-needed show; the move-back path it produces is the translation of
that initial ledger entry. -/
theorem reconcile_first_uses_initial_ledger_witness :
    ("/mnt/user/media/Show V/Season 4/e01.mkv" : String) ∈
      (processMediaAndMoveFiles ⟨"/mnt/user/", "/mnt/cache/", false⟩
        ⟨"/mnt/user/", "/mnt/cache/", false, false, true⟩ false [] [] [] [] []
        ⟨⟨["/mnt/cache/media/Show V/Season 4/e01.mkv"], []⟩,
         some ["/mnt/cache/media/Show V/Season 4/e01.mkv"]⟩).2 ∧
    ∃ e, e ∈ readLedgerLines ((some ["/mnt/cache/media/Show V/Season 4/e01.mkv"]).getD []) ∧
      existsFS ⟨["/mnt/cache/media/Show V/Season 4/e01.mkv"], []⟩ e = true ∧
      "/mnt/user/media/Show V/Season 4/e01.mkv"
        = arrayDestOf ⟨"/mnt/user/", "/mnt/cache/", false⟩ e := by
  refine ⟨by decide, ?_⟩
  exact reconcile_first_uses_initial_ledger.2 ⟨"/mnt/user/", "/mnt/cache/", false⟩
    ⟨"/mnt/user/", "/mnt/cache/", false, false, true⟩ false [] [] [] [] []
    ⟨⟨["/mnt/cache/media/Show V/Season 4/e01.mkv"], []⟩,
     some ["/mnt/cache/media/Show V/Season 4/e01.mkv"]⟩
    "/mnt/user/media/Show V/Season 4/e01.mkv" (by decide)

/-!
Mover path accessors and build-phase lemmas.
-/

/-- The `user_path` component of `_get_paths`. -/
def userPathOf (cfg : MoverCfg) (f : String) : String := (moverGetPaths cfg f).1

/-- The `cache_path` component of `_get_paths`. -/
def cachePathOf (cfg : MoverCfg) (f : String) : String := (moverGetPaths cfg f).2.1

/-- The `cache_file_name` component of `_get_paths`. -/
def cacheNameOf (cfg : MoverCfg) (f : String) : String := (moverGetPaths cfg f).2.2.1

/-- The `user_file_name` component of `_get_paths`. -/
def userNameOf (cfg : MoverCfg) (f : String) : String := (moverGetPaths cfg f).2.2.2

/-- Where a successful cache-direction move of `f` lands in the model. -/
def destNameOf (cfg : MoverCfg) (f : String) : String :=
  pyJoin (cachePathOf cfg f) (pyBasename (userNameOf cfg f))

theorem getMoveCommand_files (cfg : MoverCfg) (fs : FS) (destination : String)
    (cfn up ufn cp : String) :
    (getMoveCommand cfg fs destination cfn up ufn cp).2.files = fs.files := by
  unfold getMoveCommand
  split
  · by_cases hd : cfg.debug
    · rw [if_pos hd]
    · rw [if_neg hd]
      unfold createDirWithPermissions
      split <;> rfl
  · split
    · by_cases hd : cfg.debug
      · rw [if_pos hd]
      · rw [if_neg hd]
        unfold createDirWithPermissions
        split <;> rfl
    · rfl

theorem getMoveCommand_cache_cmd (cfg : MoverCfg) (fs : FS) (cfn up ufn cp : String) :
    (getMoveCommand cfg fs "cache" cfn up ufn cp).1 =
      if cfn ∈ fs.files then none else some (ufn, cp) := by
  unfold getMoveCommand
  rw [if_neg (by decide), if_pos rfl]
  by_cases hd : cfg.debug
  · rw [if_pos hd]
  · rw [if_neg hd]
    unfold createDirWithPermissions
    split <;> rfl

theorem buildMoveCommands_files (cfg : MoverCfg) (destination : String) :
    ∀ (files : List String) (fs : FS) (proc : List String),
      (buildMoveCommands cfg destination fs proc files).2.files = fs.files := by
  intro files
  induction files with
  | nil => intro fs proc; rfl
  | cons f rest ih =>
    intro fs proc
    simp only [buildMoveCommands]
    by_cases hf : f ∈ proc
    · rw [if_pos hf]
      exact ih fs proc
    · rw [if_neg hf]
      have h1 := getMoveCommand_files cfg fs destination
        (moverGetPaths cfg f).2.2.1 (moverGetPaths cfg f).1
        (moverGetPaths cfg f).2.2.2 (moverGetPaths cfg f).2.1
      have h2 := ih (getMoveCommand cfg fs destination (moverGetPaths cfg f).2.2.1
        (moverGetPaths cfg f).1 (moverGetPaths cfg f).2.2.2 (moverGetPaths cfg f).2.1).2
        (f :: proc)
      exact h2.trans h1

theorem buildMoveCommands_cache_shape (cfg : MoverCfg) :
    ∀ (files : List String) (fs : FS) (proc : List String)
      (cmd : (String × String) × String),
      cmd ∈ (buildMoveCommands cfg "cache" fs proc files).1 →
      ∃ f, f ∈ files ∧
        cmd = ((userNameOf cfg f, cachePathOf cfg f), cacheNameOf cfg f) ∧
        cacheNameOf cfg f ∉ fs.files := by
  intro files
  induction files with
  | nil => intro fs proc cmd hc; simp [buildMoveCommands] at hc
  | cons f rest ih =>
    intro fs proc cmd hc
    simp only [buildMoveCommands] at hc
    by_cases hf : f ∈ proc
    · rw [if_pos hf] at hc
      obtain ⟨g, hg, h2, h3⟩ := ih fs proc cmd hc
      exact ⟨g, List.mem_cons_of_mem _ hg, h2, h3⟩
    · rw [if_neg hf] at hc
      rw [getMoveCommand_cache_cmd cfg fs] at hc
      have hfiles := getMoveCommand_files cfg fs "cache"
        (moverGetPaths cfg f).2.2.1 (moverGetPaths cfg f).1
        (moverGetPaths cfg f).2.2.2 (moverGetPaths cfg f).2.1
      by_cases hin : (moverGetPaths cfg f).2.2.1 ∈ fs.files
      · rw [if_pos hin] at hc
        obtain ⟨g, hg, h2, h3⟩ := ih _ (f :: proc) cmd hc
        rw [hfiles] at h3
        exact ⟨g, List.mem_cons_of_mem _ hg, h2, h3⟩
      · rw [if_neg hin] at hc
        rcases List.mem_cons.mp hc with h | h
        · exact ⟨f, List.mem_cons_self _ _, h, hin⟩
        · obtain ⟨g, hg, h2, h3⟩ := ih _ (f :: proc) cmd h
          rw [hfiles] at h3
          exact ⟨g, List.mem_cons_of_mem _ hg, h2, h3⟩

/-!
Claim C6: ledger discipline of the individual move worker.
-/

/-- C6: with an exclude file configured, a cache-direction move appends to
the ledger exactly when the individual move succeeds, and it appends the
command's cache-side destination path; a failed move leaves the whole state
(filesystem and ledger) unchanged and returns error code 1; a non-cache
direction never touches the ledger; and inside a batch a failed command is
counted once while the remaining commands still execute. -/
theorem moveWorker_ledger_discipline (cfg : MoverCfg) (hEx : cfg.hasExcludeFile = true) :
    (∀ (st : MoveSt) (cmd : (String × String) × String),
      ((moveFileStep cfg "cache" st cmd).2 = 0 ↔ cmd.1.1 ∈ st.fs.files) ∧
      ((moveFileStep cfg "cache" st cmd).2 = 0 →
        (moveFileStep cfg "cache" st cmd).1.ledger = some (st.ledger.getD [] ++ [cmd.2])) ∧
      ((moveFileStep cfg "cache" st cmd).2 ≠ 0 → moveFileStep cfg "cache" st cmd = (st, 1)) ∧
      (∀ destination, destination ≠ "cache" →
        (moveFileStep cfg destination st cmd).1.ledger = st.ledger)) ∧
    (∀ (fs : FS) (proc files : List String) (cmd : (String × String) × String),
      cmd ∈ (buildMoveCommands cfg "cache" fs proc files).1 →
      ∃ f, f ∈ files ∧ cmd.2 = cacheNameOf cfg f ∧ cmd.1.2 = cachePathOf cfg f) ∧
    (∀ (destination : String) (st : MoveSt) (cmd : (String × String) × String)
       (cmds : List ((String × String) × String)),
      cmd.1.1 ∉ st.fs.files →
      execGo cfg destination st (cmd :: cmds) =
        ((execGo cfg destination st cmds).1, (execGo cfg destination st cmds).2 + 1)) := by
  refine ⟨?_, ?_, ?_⟩
  · intro st cmd
    refine ⟨?_, ?_, ?_, ?_⟩
    · unfold moveFileStep moveFile
      by_cases hs : cmd.1.1 ∈ st.fs.files
      · rw [if_pos hs]
        simpa using hs
      · rw [if_neg hs]
        simpa using hs
    · intro h0
      unfold moveFileStep moveFile at h0 ⊢
      by_cases hs : cmd.1.1 ∈ st.fs.files
      · rw [if_pos hs] at h0 ⊢
        simp only []
        rw [if_pos ⟨trivial, hEx⟩]
      · rw [if_neg hs] at h0
        simp at h0
    · intro h1
      unfold moveFileStep moveFile at h1 ⊢
      by_cases hs : cmd.1.1 ∈ st.fs.files
      · rw [if_pos hs] at h1
        simp at h1
      · rw [if_neg hs]
    · intro destination hd
      unfold moveFileStep moveFile
      by_cases hs : cmd.1.1 ∈ st.fs.files
      · rw [if_pos hs]
        simp only []
        rw [if_neg (fun hand => hd hand.1)]
      · rw [if_neg hs]
  · intro fs proc files cmd hc
    obtain ⟨f, hf, hcmd, -⟩ := buildMoveCommands_cache_shape cfg files fs proc cmd hc
    exact ⟨f, hf, by rw [hcmd], by rw [hcmd]⟩
  · intro destination st cmd cmds hs
    have hstep : moveFileStep cfg destination st cmd = (st, 1) := by
      unfold moveFileStep moveFile
      rw [if_neg hs]
    simp only [execGo, hstep]
    rw [Nat.add_comm]

/-- Witness for C6 with a configured exclude file, exercising the
batch-level non-abort clause at a concrete failing command. -/
theorem moveWorker_ledger_discipline_witness :
    MoverCfg.hasExcludeFile ⟨"/mnt/user/", "/mnt/cache/", false, false, true⟩ = true ∧
    execGo ⟨"/mnt/user/", "/mnt/cache/", false, false, true⟩ "cache"
        ⟨⟨["/mnt/user/m/b.mkv"], ["/mnt/cache/m"]⟩, some []⟩
        [(("/mnt/user/m/a.mkv", "/mnt/cache/m"), "/mnt/cache/m/a.mkv"),
         (("/mnt/user/m/b.mkv", "/mnt/cache/m"), "/mnt/cache/m/b.mkv")] =
      ((execGo ⟨"/mnt/user/", "/mnt/cache/", false, false, true⟩ "cache"
          ⟨⟨["/mnt/user/m/b.mkv"], ["/mnt/cache/m"]⟩, some []⟩
          [(("/mnt/user/m/b.mkv", "/mnt/cache/m"), "/mnt/cache/m/b.mkv")]).1,
       (execGo ⟨"/mnt/user/", "/mnt/cache/", false, false, true⟩ "cache"
          ⟨⟨["/mnt/user/m/b.mkv"], ["/mnt/cache/m"]⟩, some []⟩
          [(("/mnt/user/m/b.mkv", "/mnt/cache/m"), "/mnt/cache/m/b.mkv")]).2 + 1) :=
  ⟨rfl, (moveWorker_ledger_discipline ⟨"/mnt/user/", "/mnt/cache/", false, false, true⟩
    rfl).2.2 "cache" ⟨⟨["/mnt/user/m/b.mkv"], ["/mnt/cache/m"]⟩, some []⟩
    (("/mnt/user/m/a.mkv", "/mnt/cache/m"), "/mnt/cache/m/a.mkv")
    [(("/mnt/user/m/b.mkv", "/mnt/cache/m"), "/mnt/cache/m/b.mkv")] (by decide)⟩

/-!
Claim C10: deduplication by `filter_files` and `move_media_files`.
-/

/-- First-occurrence deduplication of a list, given an initial seen set: the
spine along which both `filter_files` and `move_media_files` process their
input. -/
def firstOccFrom (seen : List String) : List String → List String
  | [] => []
  | x :: xs => if x ∈ seen then firstOccFrom seen xs else x :: firstOccFrom (x :: seen) xs

theorem firstOccFrom_not_mem_seen :
    ∀ (xs seen : List String) (x : String), x ∈ firstOccFrom seen xs → x ∉ seen := by
  intro xs
  induction xs with
  | nil => intro seen x hx; simp [firstOccFrom] at hx
  | cons y ys ih =>
    intro seen x hx
    simp only [firstOccFrom] at hx
    by_cases hy : y ∈ seen
    · rw [if_pos hy] at hx
      exact ih seen x hx
    · rw [if_neg hy] at hx
      rcases List.mem_cons.mp hx with h | h
      · subst h; exact hy
      · intro hseen
        exact ih (y :: seen) x h (List.mem_cons_of_mem _ hseen)

theorem firstOccFrom_nodup : ∀ (xs seen : List String), (firstOccFrom seen xs).Nodup := by
  intro xs
  induction xs with
  | nil => intro seen; simp [firstOccFrom]
  | cons y ys ih =>
    intro seen
    simp only [firstOccFrom]
    by_cases hy : y ∈ seen
    · rw [if_pos hy]
      exact ih seen
    · rw [if_neg hy]
      refine List.nodup_cons.mpr ⟨?_, ih (y :: seen)⟩
      intro hmem
      exact firstOccFrom_not_mem_seen ys (y :: seen) y hmem (List.mem_cons_self _ _)

theorem firstOccFrom_mono :
    ∀ (xs seen seen' : List String), (∀ x, x ∈ seen → x ∈ seen') →
      List.Sublist (firstOccFrom seen' xs) (firstOccFrom seen xs) := by
  intro xs
  induction xs with
  | nil => intro seen seen' _; exact List.Sublist.refl _
  | cons y ys ih =>
    intro seen seen' hsub
    simp only [firstOccFrom]
    by_cases hy' : y ∈ seen'
    · rw [if_pos hy']
      by_cases hy : y ∈ seen
      · rw [if_pos hy]
        exact ih seen seen' hsub
      · rw [if_neg hy]
        refine List.Sublist.cons _ ?_
        refine ih (y :: seen) seen' ?_
        intro x hx
        rcases List.mem_cons.mp hx with h | h
        · subst h; exact hy'
        · exact hsub x h
    · have hy : y ∉ seen := fun h => hy' (hsub y h)
      rw [if_neg hy', if_neg hy]
      refine List.Sublist.cons₂ _ ?_
      refine ih (y :: seen) (y :: seen') ?_
      intro x hx
      rcases List.mem_cons.mp hx with h | h
      · subst h; exact List.mem_cons_self _ _
      · exact List.mem_cons_of_mem _ (hsub x h)

theorem filterGo_sublist (cfg : FilterCfg) (destination : String)
    (mtc skip : List String) :
    ∀ (files : List String) (fs : FS) (proc : List String),
      List.Sublist (filterGo cfg destination mtc skip fs proc files).1
        (firstOccFrom (proc ++ skip) files) := by
  intro files
  induction files with
  | nil => intro fs proc; exact List.nil_sublist _
  | cons f rest ih =>
    intro fs proc
    simp only [filterGo, firstOccFrom]
    by_cases hskip : f ∈ proc ∨ f ∈ skip
    · rw [if_pos hskip, if_pos (List.mem_append.mpr hskip)]
      exact ih fs proc
    · have hnot : f ∉ proc ++ skip := fun h => hskip (List.mem_append.mp h)
      rw [if_neg hskip, if_neg hnot]
      have hrec : ∀ fs2, List.Sublist (filterGo cfg destination mtc skip fs2 (f :: proc) rest).1
          (firstOccFrom (f :: (proc ++ skip)) rest) := by
        intro fs2
        exact ih fs2 (f :: proc)
      by_cases h1 : destination = "array"
      · rw [if_pos h1]
        by_cases hb : (shouldAddToArray cfg fs f (getCachePaths cfg f).2 mtc).1
        · rw [if_pos hb]
          exact List.Sublist.cons₂ _ (hrec _)
        · rw [if_neg hb]
          exact List.Sublist.cons _ (hrec _)
      · rw [if_neg h1]
        by_cases h2 : destination = "cache"
        · rw [if_pos h2]
          by_cases hb : (shouldAddToCache cfg fs f (getCachePaths cfg f).2).1
          · rw [if_pos hb]
            exact List.Sublist.cons₂ _ (hrec _)
          · rw [if_neg hb]
            exact List.Sublist.cons _ (hrec _)
        · rw [if_neg h2]
          exact List.Sublist.cons _ (hrec _)

/-- The move command (with its cache file name) that processing file `f`
contributes, as a function of the files on disk — the build loop processes
each distinct path at most once and contributes through this function. -/
def cmdFor (cfg : MoverCfg) (destination : String) (filesOnDisk : List String)
    (f : String) : Option ((String × String) × String) :=
  if destination = "array" then
    if cacheNameOf cfg f ∈ filesOnDisk then
      some ((cacheNameOf cfg f, userPathOf cfg f), cacheNameOf cfg f)
    else none
  else if destination = "cache" then
    if cacheNameOf cfg f ∈ filesOnDisk then none
    else some ((userNameOf cfg f, cachePathOf cfg f), cacheNameOf cfg f)
  else none

theorem getMoveCommand_array_cmd (cfg : MoverCfg) (fs : FS) (cfn up ufn cp : String) :
    (getMoveCommand cfg fs "array" cfn up ufn cp).1 =
      if cfn ∈ fs.files then some (cfn, up) else none := by
  unfold getMoveCommand
  rw [if_pos rfl]
  by_cases hd : cfg.debug
  · rw [if_pos hd]
  · rw [if_neg hd]
    unfold createDirWithPermissions
    split <;> rfl

theorem getMoveCommand_other_cmd (cfg : MoverCfg) (fs : FS) (destination : String)
    (cfn up ufn cp : String) (h1 : destination ≠ "array") (h2 : destination ≠ "cache") :
    (getMoveCommand cfg fs destination cfn up ufn cp).1 = none := by
  unfold getMoveCommand
  rw [if_neg h1, if_neg h2]

theorem getMoveCommand_cmd (cfg : MoverCfg) (fs : FS) (destination : String) (f : String) :
    (getMoveCommand cfg fs destination (cacheNameOf cfg f) (userPathOf cfg f)
        (userNameOf cfg f) (cachePathOf cfg f)).1 =
      Option.map Prod.fst (cmdFor cfg destination fs.files f) := by
  by_cases h1 : destination = "array"
  · subst h1
    rw [getMoveCommand_array_cmd]
    unfold cmdFor
    rw [if_pos rfl]
    by_cases hin : cacheNameOf cfg f ∈ fs.files
    · rw [if_pos hin, if_pos hin]
      rfl
    · rw [if_neg hin, if_neg hin]
      rfl
  · by_cases h2 : destination = "cache"
    · subst h2
      rw [getMoveCommand_cache_cmd]
      unfold cmdFor
      rw [if_neg (show ¬("cache" : String) = "array" by decide), if_pos rfl]
      by_cases hin : cacheNameOf cfg f ∈ fs.files
      · rw [if_pos hin, if_pos hin]
        rfl
      · rw [if_neg hin, if_neg hin]
        rfl
    · rw [getMoveCommand_other_cmd cfg fs destination _ _ _ _ h1 h2]
      unfold cmdFor
      rw [if_neg h1, if_neg h2]
      rfl

theorem cmdFor_snd (cfg : MoverCfg) (destination : String) (filesOnDisk : List String)
    (f : String) (t : (String × String) × String)
    (h : cmdFor cfg destination filesOnDisk f = some t) : t.2 = cacheNameOf cfg f := by
  unfold cmdFor at h
  by_cases h1 : destination = "array"
  · rw [if_pos h1] at h
    by_cases hin : cacheNameOf cfg f ∈ filesOnDisk
    · rw [if_pos hin] at h
      cases h
      rfl
    · rw [if_neg hin] at h
      exact Option.noConfusion h
  · rw [if_neg h1] at h
    by_cases h2 : destination = "cache"
    · rw [if_pos h2] at h
      by_cases hin : cacheNameOf cfg f ∈ filesOnDisk
      · rw [if_pos hin] at h
        exact Option.noConfusion h
      · rw [if_neg hin] at h
        cases h
        rfl
    · rw [if_neg h2] at h
      exact Option.noConfusion h

theorem buildMoveCommands_filterMap (cfg : MoverCfg) (destination : String) :
    ∀ (files : List String) (fs : FS) (proc : List String),
      (buildMoveCommands cfg destination fs proc files).1
        = (firstOccFrom proc files).filterMap (cmdFor cfg destination fs.files) := by
  intro files
  induction files with
  | nil => intro fs proc; rfl
  | cons f rest ih =>
    intro fs proc
    simp only [buildMoveCommands, firstOccFrom]
    by_cases hf : f ∈ proc
    · rw [if_pos hf, if_pos hf]
      exact ih fs proc
    · rw [if_neg hf, if_neg hf]
      have hfiles := getMoveCommand_files cfg fs destination
        (moverGetPaths cfg f).2.2.1 (moverGetPaths cfg f).1
        (moverGetPaths cfg f).2.2.2 (moverGetPaths cfg f).2.1
      have hrec := ih (getMoveCommand cfg fs destination (moverGetPaths cfg f).2.2.1
        (moverGetPaths cfg f).1 (moverGetPaths cfg f).2.2.2 (moverGetPaths cfg f).2.1).2
        (f :: proc)
      rw [hfiles] at hrec
      have hcmd : (getMoveCommand cfg fs destination (moverGetPaths cfg f).2.2.1
          (moverGetPaths cfg f).1 (moverGetPaths cfg f).2.2.2 (moverGetPaths cfg f).2.1).1 =
          Option.map Prod.fst (cmdFor cfg destination fs.files f) :=
        getMoveCommand_cmd cfg fs destination f
      rw [List.filterMap_cons]
      cases hc : cmdFor cfg destination fs.files f with
      | none =>
        have hnone : (getMoveCommand cfg fs destination (moverGetPaths cfg f).2.2.1
            (moverGetPaths cfg f).1 (moverGetPaths cfg f).2.2.2 (moverGetPaths cfg f).2.1).1
            = none := by rw [hcmd, hc]; rfl
        rw [hnone]
        exact hrec
      | some t =>
        have hsome : (getMoveCommand cfg fs destination (moverGetPaths cfg f).2.2.1
            (moverGetPaths cfg f).1 (moverGetPaths cfg f).2.2.2 (moverGetPaths cfg f).2.1).1
            = some t.1 := by rw [hcmd, hc]; rfl
        rw [hsome]
        simp only [Option.elim_some]
        have ht2 : (moverGetPaths cfg f).2.2.1 = t.2 :=
          (cmdFor_snd cfg destination fs.files f t hc).symm
        nth_rewrite 1 [ht2]
        rw [hrec]

/-- C10 (counterexample to the claim as stated): two distinct input strings
that alias the same file after path normalization (`/mnt/user/m//x.mkv` and
`/mnt/user/m/x.mkv`) each survive the string-level deduplication and produce
*identical* move commands, so the generated command list contains a
duplicate entry. -/
theorem duplicate_commands_from_alias_paths :
    (buildMoveCommands ⟨"/mnt/user/", "/mnt/cache/", false, false, true⟩ "cache"
        ⟨[], []⟩ [] ["/mnt/user/m//x.mkv", "/mnt/user/m/x.mkv"]).1 =
      [(("/mnt/user/m/x.mkv", "/mnt/cache/m"), "/mnt/cache/m/x.mkv"),
       (("/mnt/user/m/x.mkv", "/mnt/cache/m"), "/mnt/cache/m/x.mkv")] ∧
    ¬ (buildMoveCommands ⟨"/mnt/user/", "/mnt/cache/", false, false, true⟩ "cache"
        ⟨[], []⟩ [] ["/mnt/user/m//x.mkv", "/mnt/user/m/x.mkv"]).1.Nodup := by
  decide

/-- C10 (amended): both loops process each distinct path string at most once:
`filter_files` returns a duplicate-free move list that is a subsequence of
the input's first-occurrence deduplication, and `move_media_files` generates
its command list as one optional command per entry of that first-occurrence
deduplication (so at most one command, one move and one ledger append per
distinct input string); distinct strings aliasing the same file can still
produce equal commands. -/
theorem dedup_first_occurrence_processing :
    (∀ (cfg : FilterCfg) (fs : FS) (files : List String) (destination : String)
       (mtc skip : List String),
      (filterFiles cfg fs files destination mtc skip).1.Nodup ∧
      List.Sublist (filterFiles cfg fs files destination mtc skip).1
        (firstOccFrom skip files)) ∧
    (∀ (cfgM : MoverCfg) (fsM : FS) (destination : String) (files : List String),
      (buildMoveCommands cfgM destination fsM [] files).1
        = (firstOccFrom [] files).filterMap (cmdFor cfgM destination fsM.files)) ∧
    (∀ (files seen : List String), (firstOccFrom seen files).Nodup) := by
  refine ⟨?_, ?_, ?_⟩
  · intro cfg fs files destination mtc skip
    have hsub : List.Sublist (filterFiles cfg fs files destination mtc skip).1
        (firstOccFrom skip files) := by
      have h := filterGo_sublist cfg destination mtc skip files fs []
      simpa using h
    exact ⟨(firstOccFrom_nodup files skip).sublist hsub, hsub⟩
  · intro cfgM fsM destination files
    exact buildMoveCommands_filterMap cfgM destination files fsM []
  · exact fun files seen => firstOccFrom_nodup files seen

/-!
Claim C5: idempotence of the cache-direction move.
-/

/-- Shape of a cache-direction command list: every command is the
`(user_file_name, cache_path, cache_file_name)` triple of some input file. -/
def CacheCmds (cfg : MoverCfg) (files : List String)
    (cmds : List ((String × String) × String)) : Prop :=
  ∀ cmd ∈ cmds, ∃ f, f ∈ files ∧
    cmd = ((userNameOf cfg f, cachePathOf cfg f), cacheNameOf cfg f)

theorem moveFileStep_cache_success (cfg : MoverCfg) (st : MoveSt) (f : String)
    (h : userNameOf cfg f ∈ st.fs.files) :
    (moveFileStep cfg "cache" st
        ((userNameOf cfg f, cachePathOf cfg f), cacheNameOf cfg f)).1.fs.files
      = (if destNameOf cfg f ∈ st.fs.files.filter (fun x => x ≠ userNameOf cfg f)
         then st.fs.files.filter (fun x => x ≠ userNameOf cfg f)
         else destNameOf cfg f :: st.fs.files.filter (fun x => x ≠ userNameOf cfg f)) := by
  unfold moveFileStep moveFile
  rw [if_pos h]
  rfl

theorem moveFileStep_cache_fail (cfg : MoverCfg) (st : MoveSt) (src dst cfn : String)
    (h : src ∉ st.fs.files) :
    moveFileStep cfg "cache" st ((src, dst), cfn) = (st, 1) := by
  unfold moveFileStep moveFile
  rw [if_neg h]

theorem execGo_dirs (cfg : MoverCfg) (destination : String) :
    ∀ (cmds : List ((String × String) × String)) (st : MoveSt),
      (execGo cfg destination st cmds).1.fs.dirs = st.fs.dirs := by
  intro cmds
  induction cmds with
  | nil => intro st; rfl
  | cons c cs ih =>
    intro st
    simp only [execGo]
    have hstep : (moveFileStep cfg destination st c).1.fs.dirs = st.fs.dirs := by
      unfold moveFileStep moveFile
      by_cases hs : c.1.1 ∈ st.fs.files
      · rw [if_pos hs]
      · rw [if_neg hs]
    rw [ih, hstep]

theorem execGo_keep (cfg : MoverCfg) (files : List String) (x : String)
    (hx : ∀ g ∈ files, x ≠ userNameOf cfg g) :
    ∀ (cmds : List ((String × String) × String)) (st : MoveSt),
      CacheCmds cfg files cmds → x ∈ st.fs.files →
      x ∈ (execGo cfg "cache" st cmds).1.fs.files := by
  intro cmds
  induction cmds with
  | nil => intro st _ hmem; exact hmem
  | cons c cs ih =>
    intro st hshape hmem
    obtain ⟨f, hf, hc⟩ := hshape c (List.mem_cons_self _ _)
    have hshape2 : CacheCmds cfg files cs := fun cmd h => hshape cmd (List.mem_cons_of_mem _ h)
    simp only [execGo]
    subst hc
    by_cases hs : userNameOf cfg f ∈ st.fs.files
    · refine ih _ hshape2 ?_
      rw [moveFileStep_cache_success cfg st f hs]
      have hxf : x ∈ st.fs.files.filter (fun y => y ≠ userNameOf cfg f) := by
        rw [List.mem_filter]
        exact ⟨hmem, by simpa using hx f hf⟩
      split
      · exact hxf
      · exact List.mem_cons_of_mem _ hxf
    · rw [moveFileStep_cache_fail cfg st _ _ _ hs]
      exact ih st hshape2 hmem

theorem execGo_out (cfg : MoverCfg) (files : List String) (x : String)
    (hx : ∀ g ∈ files, x ≠ destNameOf cfg g) :
    ∀ (cmds : List ((String × String) × String)) (st : MoveSt),
      CacheCmds cfg files cmds → x ∉ st.fs.files →
      x ∉ (execGo cfg "cache" st cmds).1.fs.files := by
  intro cmds
  induction cmds with
  | nil => intro st _ hmem; exact hmem
  | cons c cs ih =>
    intro st hshape hmem
    obtain ⟨f, hf, hc⟩ := hshape c (List.mem_cons_self _ _)
    have hshape2 : CacheCmds cfg files cs := fun cmd h => hshape cmd (List.mem_cons_of_mem _ h)
    simp only [execGo]
    subst hc
    by_cases hs : userNameOf cfg f ∈ st.fs.files
    · refine ih _ hshape2 ?_
      rw [moveFileStep_cache_success cfg st f hs]
      have hxf : x ∉ st.fs.files.filter (fun y => y ≠ userNameOf cfg f) := by
        rw [List.mem_filter]
        exact fun h => hmem h.1
      split
      · exact hxf
      · intro h
        rcases List.mem_cons.mp h with h | h
        · exact hx f hf h
        · exact hxf h
    · rw [moveFileStep_cache_fail cfg st _ _ _ hs]
      exact ih st hshape2 hmem

theorem execGo_src_gone (cfg : MoverCfg) (files : List String) (f : String)
    (hf : f ∈ files)
    (hsep : ∀ g ∈ files, ∀ h ∈ files,
      cacheNameOf cfg g ≠ userNameOf cfg h ∧ destNameOf cfg g ≠ userNameOf cfg h) :
    ∀ (cmds : List ((String × String) × String)) (st : MoveSt),
      CacheCmds cfg files cmds →
      ((userNameOf cfg f, cachePathOf cfg f), cacheNameOf cfg f) ∈ cmds →
      userNameOf cfg f ∉ (execGo cfg "cache" st cmds).1.fs.files := by
  have hxd : ∀ g ∈ files, userNameOf cfg f ≠ destNameOf cfg g := by
    intro g hg
    exact fun h => (hsep g hg f hf).2 h.symm
  intro cmds
  induction cmds with
  | nil => intro st _ hmem; simp at hmem
  | cons c cs ih =>
    intro st hshape hmem
    have hshape2 : CacheCmds cfg files cs := fun cmd h => hshape cmd (List.mem_cons_of_mem _ h)
    rcases List.mem_cons.mp hmem with hc | hc
    · subst hc
      simp only [execGo]
      by_cases hs : userNameOf cfg f ∈ st.fs.files
      · refine execGo_out cfg files _ hxd cs _ hshape2 ?_
        rw [moveFileStep_cache_success cfg st f hs]
        have hxf : userNameOf cfg f ∉ st.fs.files.filter (fun y => y ≠ userNameOf cfg f) := by
          rw [List.mem_filter]
          intro h
          simpa using h.2
        split
        · exact hxf
        · intro h
          rcases List.mem_cons.mp h with h | h
          · exact (hsep f hf f hf).2 h.symm
          · exact hxf h
      · rw [moveFileStep_cache_fail cfg st _ _ _ hs]
        exact execGo_out cfg files _ hxd cs st hshape2 hs
    · simp only [execGo]
      exact ih _ hshape2 hc

theorem execGo_allfail (cfg : MoverCfg) (destination : String) :
    ∀ (cmds : List ((String × String) × String)) (st : MoveSt),
      (∀ cmd ∈ cmds, cmd.1.1 ∉ st.fs.files) →
      execGo cfg destination st cmds = (st, cmds.length) := by
  intro cmds
  induction cmds with
  | nil => intro st _; rfl
  | cons c cs ih =>
    intro st hfail
    have hstep : moveFileStep cfg destination st c = (st, 1) := by
      unfold moveFileStep moveFile
      rw [if_neg (hfail c (List.mem_cons_self _ _))]
    simp only [execGo, hstep]
    rw [ih st (fun cmd h => hfail cmd (List.mem_cons_of_mem _ h))]
    simp [Nat.add_comm]

theorem createDir_of_mem (fs : FS) (p : String) (h : p ∈ fs.dirs) :
    createDirWithPermissions fs p = fs := by
  unfold createDirWithPermissions
  rw [if_pos h]

theorem createDir_mem (fs : FS) (p : String) :
    p ∈ (createDirWithPermissions fs p).dirs := by
  unfold createDirWithPermissions
  split
  · assumption
  · exact List.mem_cons_self _ _

theorem createDir_mono (fs : FS) (p x : String) (h : x ∈ fs.dirs) :
    x ∈ (createDirWithPermissions fs p).dirs := by
  unfold createDirWithPermissions
  split
  · exact h
  · exact List.mem_cons_of_mem _ h

theorem getMoveCommand_cache_state (cfg : MoverCfg) (fs : FS) (cfn up ufn cp : String) :
    (getMoveCommand cfg fs "cache" cfn up ufn cp).2 =
      if cfg.debug then fs else createDirWithPermissions fs cp := by
  unfold getMoveCommand
  rw [if_neg (show ¬("cache" : String) = "array" by decide), if_pos rfl]

theorem buildMoveCommands_cache_complete (cfg : MoverCfg) :
    ∀ (files : List String) (fs : FS) (proc : List String) (f : String),
      f ∈ files → f ∉ proc → cacheNameOf cfg f ∉ fs.files →
      ((userNameOf cfg f, cachePathOf cfg f), cacheNameOf cfg f)
        ∈ (buildMoveCommands cfg "cache" fs proc files).1 := by
  intro files
  induction files with
  | nil => intro fs proc f hf; simp at hf
  | cons f0 rest ih =>
    intro fs proc f hf hproc hcn
    simp only [buildMoveCommands]
    by_cases hff : f = f0
    · subst hff
      rw [if_neg hproc]
      have hcmd : (getMoveCommand cfg fs "cache" (moverGetPaths cfg f).2.2.1
          (moverGetPaths cfg f).1 (moverGetPaths cfg f).2.2.2 (moverGetPaths cfg f).2.1).1
          = some (userNameOf cfg f, cachePathOf cfg f) := by
        rw [getMoveCommand_cache_cmd]
        exact if_neg hcn
      rw [hcmd]
      simp only [Option.elim_some]
      exact List.mem_cons_self _ _
    · have hfr : f ∈ rest := by
        rcases List.mem_cons.mp hf with h | h
        · exact absurd h hff
        · exact h
      by_cases hp0 : f0 ∈ proc
      · rw [if_pos hp0]
        exact ih fs proc f hfr hproc hcn
      · rw [if_neg hp0]
        have hfiles := getMoveCommand_files cfg fs "cache"
          (moverGetPaths cfg f0).2.2.1 (moverGetPaths cfg f0).1
          (moverGetPaths cfg f0).2.2.2 (moverGetPaths cfg f0).2.1
        have hrec := ih (getMoveCommand cfg fs "cache" (moverGetPaths cfg f0).2.2.1
          (moverGetPaths cfg f0).1 (moverGetPaths cfg f0).2.2.2 (moverGetPaths cfg f0).2.1).2
          (f0 :: proc) f hfr
          (fun h => absurd (List.mem_cons.mp h) (by
            intro hh
            rcases hh with hh | hh
            · exact hff hh
            · exact hproc hh))
          (by rw [hfiles]; exact hcn)
        cases hc : (getMoveCommand cfg fs "cache" (moverGetPaths cfg f0).2.2.1
            (moverGetPaths cfg f0).1 (moverGetPaths cfg f0).2.2.2 (moverGetPaths cfg f0).2.1).1 with
        | none =>
          simp only [Option.elim_none]
          exact hrec
        | some m =>
          simp only [Option.elim_some]
          exact List.mem_cons_of_mem _ hrec

theorem buildMoveCommands_dirs_mono (cfg : MoverCfg) (destination : String) :
    ∀ (files : List String) (fs : FS) (proc : List String) (x : String),
      x ∈ fs.dirs → x ∈ (buildMoveCommands cfg destination fs proc files).2.dirs := by
  intro files
  induction files with
  | nil => intro fs proc x hx; exact hx
  | cons f rest ih =>
    intro fs proc x hx
    simp only [buildMoveCommands]
    by_cases hp : f ∈ proc
    · rw [if_pos hp]
      exact ih fs proc x hx
    · rw [if_neg hp]
      refine ih _ (f :: proc) x ?_
      unfold getMoveCommand
      split
      · by_cases hd : cfg.debug
        · rw [if_pos hd]; exact hx
        · rw [if_neg hd]; exact createDir_mono _ _ _ hx
      · split
        · by_cases hd : cfg.debug
          · rw [if_pos hd]; exact hx
          · rw [if_neg hd]; exact createDir_mono _ _ _ hx
        · exact hx

theorem buildMoveCommands_cache_absorb (cfg : MoverCfg) :
    ∀ (files proc : List String) (fs fs2 : FS),
      (∀ x, x ∈ (buildMoveCommands cfg "cache" fs proc files).2.dirs → x ∈ fs2.dirs) →
      (buildMoveCommands cfg "cache" fs2 proc files).2 = fs2 := by
  intro files
  induction files with
  | nil => intro proc fs fs2 _; rfl
  | cons f rest ih =>
    intro proc fs fs2 hdirs
    simp only [buildMoveCommands] at hdirs ⊢
    by_cases hp : f ∈ proc
    · rw [if_pos hp] at hdirs ⊢
      exact ih proc fs fs2 hdirs
    · rw [if_neg hp] at hdirs ⊢
      rw [getMoveCommand_cache_state] at hdirs ⊢
      by_cases hd : cfg.debug
      · rw [if_pos hd] at hdirs ⊢
        exact ih (f :: proc) fs fs2 hdirs
      · rw [if_neg hd] at hdirs ⊢
        have hcp : (moverGetPaths cfg f).2.1 ∈ fs2.dirs := by
          refine hdirs _ ?_
          refine buildMoveCommands_dirs_mono cfg "cache" rest _ (f :: proc) _ ?_
          exact createDir_mem fs (moverGetPaths cfg f).2.1
        rw [createDir_of_mem fs2 _ hcp]
        exact ih (f :: proc) (createDirWithPermissions fs (moverGetPaths cfg f).2.1) fs2 hdirs

/-- C5: a cache-direction move command is built for a file exactly when its
cache-side counterpart does not yet exist, and the cache-direction move pass
is idempotent on the combined filesystem-and-ledger state: running it a
second time from the state the first run produced changes nothing (in
particular the ledger does not grow), provided the per-file path tuples do
not alias each other (no file's cache-side name or move destination
coincides with another file's source name). -/
theorem moveCache_idempotent (cfg : MoverCfg) (files : List String) (st : MoveSt)
    (hsep : ∀ f ∈ files, ∀ g ∈ files,
      cacheNameOf cfg f ≠ userNameOf cfg g ∧ destNameOf cfg f ≠ userNameOf cfg g) :
    (∀ (fs : FS) (cfn up ufn cp : String),
      (getMoveCommand cfg fs "cache" cfn up ufn cp).1 =
        if cfn ∈ fs.files then none else some (ufn, cp)) ∧
    (moveMediaFiles cfg files "cache" (moveMediaFiles cfg files "cache" st).1).1
      = (moveMediaFiles cfg files "cache" st).1 := by
  refine ⟨fun fs cfn up ufn cp => getMoveCommand_cache_cmd cfg fs cfn up ufn cp, ?_⟩
  by_cases hd : cfg.debug = true
  · simp [moveMediaFiles_debug_noop cfg hd]
  · have hrun : ∀ s : MoveSt, moveMediaFiles cfg files "cache" s =
        execGo cfg "cache"
          { fs := (buildMoveCommands cfg "cache" s.fs [] files).2, ledger := s.ledger }
          (buildMoveCommands cfg "cache" s.fs [] files).1 := by
      intro s
      unfold moveMediaFiles executeMoveCommands
      rw [if_neg hd]
    have hb1files : (buildMoveCommands cfg "cache" st.fs [] files).2.files = st.fs.files :=
      buildMoveCommands_files cfg "cache" files st.fs []
    have hshape1 : CacheCmds cfg files (buildMoveCommands cfg "cache" st.fs [] files).1 := by
      intro cmd hc
      obtain ⟨f, hf, he, -⟩ := buildMoveCommands_cache_shape cfg files st.fs [] cmd hc
      exact ⟨f, hf, he⟩
    set st1 := (moveMediaFiles cfg files "cache" st).1 with hst1def
    have hst1 : st1 = (execGo cfg "cache"
        { fs := (buildMoveCommands cfg "cache" st.fs [] files).2, ledger := st.ledger }
        (buildMoveCommands cfg "cache" st.fs [] files).1).1 := by
      rw [hst1def, hrun st]
    have hst1dirs : st1.fs.dirs = (buildMoveCommands cfg "cache" st.fs [] files).2.dirs := by
      rw [hst1]
      exact execGo_dirs cfg "cache" _ _
    have hkey : ∀ f ∈ files, cacheNameOf cfg f ∉ st1.fs.files →
        userNameOf cfg f ∉ st1.fs.files := by
      intro f hf hcn
      by_cases hin : cacheNameOf cfg f ∈ st.fs.files
      · exfalso
        apply hcn
        rw [hst1]
        refine execGo_keep cfg files (cacheNameOf cfg f)
          (fun g hg => (hsep f hf g hg).1) _ _ hshape1 ?_
        show cacheNameOf cfg f ∈ (buildMoveCommands cfg "cache" st.fs [] files).2.files
        rw [hb1files]
        exact hin
      · have hcmd : ((userNameOf cfg f, cachePathOf cfg f), cacheNameOf cfg f)
            ∈ (buildMoveCommands cfg "cache" st.fs [] files).1 :=
          buildMoveCommands_cache_complete cfg files st.fs [] f hf (List.not_mem_nil f) hin
        rw [hst1]
        exact execGo_src_gone cfg files f hf hsep _ _ hshape1 hcmd
    rw [hrun st1]
    have hb2state : (buildMoveCommands cfg "cache" st1.fs [] files).2 = st1.fs := by
      refine buildMoveCommands_cache_absorb cfg files [] st.fs st1.fs ?_
      intro x hx
      rw [hst1dirs]
      exact hx
    have hallfail : ∀ cmd ∈ (buildMoveCommands cfg "cache" st1.fs [] files).1,
        cmd.1.1 ∉ (MoveSt.mk (buildMoveCommands cfg "cache" st1.fs [] files).2
          st1.ledger).fs.files := by
      intro cmd hc
      obtain ⟨f, hf, he, hcn⟩ := buildMoveCommands_cache_shape cfg files st1.fs [] cmd hc
      have hout := hkey f hf hcn
      rw [he]
      show userNameOf cfg f ∉ (buildMoveCommands cfg "cache" st1.fs [] files).2.files
      rw [hb2state]
      exact hout
    rw [execGo_allfail cfg "cache" _ _ hallfail]
    show (MoveSt.mk (buildMoveCommands cfg "cache" st1.fs [] files).2 st1.ledger) = st1
    rw [hb2state]

/-- Witness for C5 at a concrete one-file move into an empty cache. -/
theorem moveCache_idempotent_witness :
    (∀ (fs : FS) (cfn up ufn cp : String),
      (getMoveCommand ⟨"/mnt/user/", "/mnt/cache/", false, false, true⟩ fs "cache"
          cfn up ufn cp).1 = if cfn ∈ fs.files then none else some (ufn, cp)) ∧
    (moveMediaFiles ⟨"/mnt/user/", "/mnt/cache/", false, false, true⟩
        ["/mnt/user/m/x.mkv"] "cache"
        (moveMediaFiles ⟨"/mnt/user/", "/mnt/cache/", false, false, true⟩
          ["/mnt/user/m/x.mkv"] "cache"
          ⟨⟨["/mnt/user/m/x.mkv"], []⟩, some []⟩).1).1
      = (moveMediaFiles ⟨"/mnt/user/", "/mnt/cache/", false, false, true⟩
          ["/mnt/user/m/x.mkv"] "cache" ⟨⟨["/mnt/user/m/x.mkv"], []⟩, some []⟩).1 :=
  moveCache_idempotent ⟨"/mnt/user/", "/mnt/cache/", false, false, true⟩
    ["/mnt/user/m/x.mkv"] ⟨⟨["/mnt/user/m/x.mkv"], []⟩, some []⟩ (by decide)
